import Mathlib

/-!
# Verification of the GeneralsHjl Rules Engine and Search AI

A shallow embedding of the game core of the repository: the canonical Rules
Engine (`src/game/GameEngine.js`), the Minimax Search AI's private move
simulation (`src/game/ai/index.js`, class `MinimaxAI`) and the random
fallback controller (`src/game/ai/RandomAI.js`).

Modelling conventions:
* JavaScript numbers holding game quantities (`owner`, `units`, `type`,
  `captureCost`, counters) are embedded as `Int`; `Math.floor(a / 2)` on an
  integer becomes `Int.fdiv a 2` and the JS remainder test `x % 25 === 0`
  becomes `x % 25 = 0` (both conventions agree on the divisibility test).
* Grid coordinates are `Nat`; the optional-chaining lookup
  `map.tiles[y]?.[x]` becomes an `Option Tile` valued `tileAt`.
* The engine mutates tiles in place through aliases (`fromTile`, `toTile`,
  the `tile` field stored inside `playerTiles` entries).  The embedding is
  functional: a mutation becomes a grid update (`setTile`), an alias read
  becomes a fresh `tileAt` lookup in the current grid, and the `tile` field
  of a `playerTiles` entry (which in JS is a pointer into the grid) is
  dropped — the index stores coordinates and readers look the tile up.
* `playerTiles` is a JS object keyed by player id; it is embedded as a total
  function `Int → List (Nat × Nat)`.  The engine creates keys exactly for
  players `1..playerCount` and its updates are guarded to that range.
* `console.log` calls are ignored (no observable effect on the state).
-/

/-- A grid cell.  `type`: 0 = Blank, 1 = Mountain, 2 = Stronghold,
3 = Capital.  `owner` 0 is neutral.  `captureCost` is `none` when the JS
field is `undefined`. -/
structure Tile where
  type : Int
  owner : Int
  units : Int
  captureCost : Option Int
deriving Repr, DecidableEq

/-- An entry of the map's capital registry. -/
structure Capital where
  x : Nat
  y : Nat
  playerId : Int
deriving Repr, DecidableEq

/-- The map: a grid of tiles (row-major, `tiles[y][x]`) plus the capital
registry. -/
structure GameMap where
  width : Nat
  height : Nat
  tiles : List (List Tile)
  capitals : List Capital
deriving Repr, DecidableEq

/-- The per-player tile index `{ playerId: [{x, y, tile}, ...] }`, embedded
as a total function from player id to the list of owned coordinates. -/
def PT : Type := Int → List (Nat × Nat)

/-- The engine-owned game state (fields of the `GameEngine` instance that
the claims are about; the `ais` registry is irrelevant to state evolution
and omitted). -/
structure GameState where
  map : GameMap
  playerCount : Int
  currentPlayer : Int
  turn : Int
  round : Int
  winner : Option Int
  gameOver : Bool
  playerTiles : PT

/-- `map.tiles[y]?.[x]` — `none` when either index is out of range. -/
def tileAt (m : GameMap) (x y : Nat) : Option Tile :=
  m.tiles[y]?.bind fun row => row[x]?

/-- Writing through a tile alias: replace the tile stored at `(x, y)`.
Out-of-range coordinates leave the grid unchanged (the engine only writes
through aliases obtained from successful lookups). -/
def setTile (m : GameMap) (x y : Nat) (t : Tile) : GameMap :=
  { m with tiles := m.tiles.set y ((m.tiles.getD y []).set x t) }

/-- Pointwise update of the player-tile index at one key. -/
def ptUpdate (pt : PT) (p : Int) (l : List (Nat × Nat)) : PT :=
  fun q => if q = p then l else pt q

/-- All coordinates of a `width × height` grid in the row-major order the
engine's `for y / for x` loops visit them. -/
def allCoords (m : GameMap) : List (Nat × Nat) :=
  (List.range m.height).flatMap fun y => (List.range m.width).map fun x => (x, y)

/-- The integers `a, a+1, ..., b` (the range of a JS
`for (let id = a; id <= b; id++)` loop). -/
def intRange (a b : Int) : List Int :=
  (List.range (b - a + 1).toNat).map fun (i : Nat) => a + (i : Int)

/-- Manhattan distance `Math.abs(toX - fromX) + Math.abs(toY - fromY)`. -/
def manhattan (fromX fromY toX toY : Nat) : Int :=
  ((toX : Int) - (fromX : Int)).natAbs + ((toY : Int) - (fromY : Int)).natAbs

/-- Apply `f` to every tile of the grid (the engine's nested
`for y < height / for x < width` mutation loops; the engine's grid is
rectangular, so visiting the list structure visits exactly those cells). -/
def mapTiles (f : Tile → Tile) (m : GameMap) : GameMap :=
  { m with tiles := m.tiles.map fun row => row.map f }

/-- Whether the tile at coordinate `c` exists and is owned by `p` (the
ownership test the engine's loops and index maintenance perform through
tile aliases). -/
def tileOwnedBy (m : GameMap) (c : Nat × Nat) (p : Int) : Bool :=
  match tileAt m c.1 c.2 with
  | some t => t.owner == p
  | none => false

namespace GameEngine

/-- `initPlayerTiles`: keys `1..playerCount` map to the row-major list of
coordinates the player owns (the push is guarded by
`0 < owner ≤ playerCount`); other keys are absent, i.e. empty. -/
def initPlayerTiles (m : GameMap) (playerCount : Int) : PT :=
  fun p =>
    if 1 ≤ p ∧ p ≤ playerCount then
      (allCoords m).filter fun c => tileOwnedBy m c p
    else []

/-- The `GameEngine` constructor: initial state over a generated map. -/
def initState (m : GameMap) (playerCount : Int) : GameState where
  map := m
  playerCount := playerCount
  currentPlayer := 1
  turn := 1
  round := 1
  winner := none
  gameOver := false
  playerTiles := initPlayerTiles m playerCount

/-- `updateTileOwnership(x, y, oldOwner, newOwner)`: remove the first entry
for `(x, y)` from the old owner's list, append to the new owner's list;
both steps guarded by `0 < id ≤ playerCount`. -/
def updateTileOwnership (playerCount : Int) (pt : PT) (x y : Nat)
    (oldOwner newOwner : Int) : PT :=
  let pt1 :=
    if 0 < oldOwner ∧ oldOwner ≤ playerCount then
      ptUpdate pt oldOwner ((pt oldOwner).eraseP fun c => c.1 == x && c.2 == y)
    else pt
  if 0 < newOwner ∧ newOwner ≤ playerCount then
    ptUpdate pt1 newOwner (pt1 newOwner ++ [(x, y)])
  else pt1

/-- `isValidMove`: both tiles exist, source owned by the current player with
`units ≥ 2`, target not a Mountain, Manhattan distance exactly 1. -/
def isValidMove (s : GameState) (fromX fromY toX toY : Nat) : Bool :=
  match tileAt s.map fromX fromY, tileAt s.map toX toY with
  | some fromTile, some toTile =>
    fromTile.owner == s.currentPlayer &&
    !(fromTile.units < 2) &&
    !(toTile.type == 1) &&
    manhattan fromX fromY toX toY == 1
  | _, _ => false

/-- The tile update of the `takeoverPlayerTiles` loop body:
`units := Math.floor(units / 2) + 1`, new owner, and a Capital is demoted
to a Stronghold. -/
def transferTile (conqueror : Int) (tile : Tile) : Tile :=
  let t1 : Tile := { tile with owner := conqueror, units := Int.fdiv tile.units 2 + 1 }
  if tile.type == 3 then { t1 with type := 2 } else t1

/-- One iteration of the `takeoverPlayerTiles` loop body at coordinate `c`:
re-check ownership, then transfer the tile and update the index. -/
def takeoverStep (playerCount defeated conqueror : Int)
    (acc : GameMap × PT) (c : Nat × Nat) : GameMap × PT :=
  match tileAt acc.1 c.1 c.2 with
  | some tile =>
    if tile.owner == defeated then
      (setTile acc.1 c.1 c.2 (transferTile conqueror tile),
       updateTileOwnership playerCount acc.2 c.1 c.2 defeated conqueror)
    else acc
  | none => acc

/-- `takeoverPlayerTiles(defeatedPlayerId, conquerorId)`: walk a snapshot of
the defeated player's index entries and transfer each tile still owned by
the defeated player. -/
def takeoverPlayerTiles (playerCount : Int) (m : GameMap) (pt : PT)
    (defeated conqueror : Int) : GameMap × PT :=
  (pt defeated).foldl (takeoverStep playerCount defeated conqueror) (m, pt)

/-- `getRemainingPlayers`: players whose registered capital tile they still
own. -/
def getRemainingPlayers (m : GameMap) : List Int :=
  m.capitals.filterMap fun c =>
    match tileAt m c.x c.y with
    | some t => if t.owner == c.playerId then some c.playerId else none
    | none => none

/-- The `checkWinCondition` capital loop: the first capital held by a
foreign (non-neutral) player triggers the remaining-players check; if
exactly one player remains the loop returns that winner. -/
def checkWinLoop (m : GameMap) : List Capital → Option Int
  | [] => none
  | c :: rest =>
    match tileAt m c.x c.y with
    | some t =>
      if t.owner ≠ c.playerId ∧ t.owner ≠ 0 then
        match getRemainingPlayers m with
        | [w] => some w
        | _ => checkWinLoop m rest
      else checkWinLoop m rest
    | none => checkWinLoop m rest

/-- `checkWinCondition`: sets `winner`/`gameOver` when the loop finds a
winner, otherwise leaves the state alone. -/
def checkWinCondition (s : GameState) : GameState :=
  match checkWinLoop s.map s.map.capitals with
  | some w => { s with winner := some w, gameOver := true }
  | none => s

/-- `makeMove(fromX, fromY, toX, toY, moveType)`: returns the success flag
together with the (possibly updated) state.  A faithful functional rendering
of `GameEngine.makeMove`; the target tile is re-read from the grid after the
source write, matching the JS alias semantics. -/
def makeMove (s : GameState) (fromX fromY toX toY : Nat) (moveType : String) :
    Bool × GameState :=
  if s.gameOver then (false, s)
  else if ¬ isValidMove s fromX fromY toX toY then (false, s)
  else
    match tileAt s.map fromX fromY with
    | none => (false, s)
    | some fromTile =>
      let moveUnits : Int :=
        if moveType == "half" then Int.fdiv fromTile.units 2 else fromTile.units - 1
      if moveUnits < 1 then (false, s)
      else
        let newFromUnits := fromTile.units - moveUnits
        let newFromUnits := if newFromUnits < 1 then 1 else newFromUnits
        let map1 := setTile s.map fromX fromY { fromTile with units := newFromUnits }
        match tileAt map1 toX toY with
        | none => (false, s)
        | some toTile =>
          let oldToOwner := toTile.owner
          if toTile.owner == 0 then
            -- neutral tile: free occupation (the dead `moveUnits < 1`
            -- rollback branch of the source restores the original state)
            if moveUnits < 1 then (false, s)
            else
              let map2 := setTile map1 toX toY
                { toTile with owner := s.currentPlayer, units := moveUnits }
              let pt2 := updateTileOwnership s.playerCount s.playerTiles toX toY 0 s.currentPlayer
              (true, checkWinCondition { s with map := map2, playerTiles := pt2 })
          else if toTile.owner == s.currentPlayer then
            -- own tile: merge
            let map2 := setTile map1 toX toY { toTile with units := toTile.units + moveUnits }
            (true, checkWinCondition { s with map := map2 })
          else
            -- enemy tile: combat
            let result := moveUnits - toTile.units
            let wasCapital := toTile.type == 3
            let wasStronghold := toTile.type == 2
            let isSpecialTile := wasCapital || wasStronghold
            if isSpecialTile && result < 1 then
              -- Stronghold/Capital attack that falls short: defender loses
              -- `moveUnits` units, clamped at 0; ownership unchanged
              let newUnits := toTile.units - moveUnits
              let newUnits := if newUnits ≤ 0 then 0 else newUnits
              let map2 := setTile map1 toX toY { toTile with units := newUnits }
              (true, checkWinCondition { s with map := map2 })
            else if 0 ≤ result then
              -- capture (plain tiles reach this branch whenever result ≥ 0)
              let capturedTile := { toTile with owner := s.currentPlayer, units := result }
              let capturedTile :=
                if wasCapital && oldToOwner ≠ 0 then { capturedTile with type := 2 }
                else capturedTile
              let map2 := setTile map1 toX toY capturedTile
              let state2 :=
                if wasCapital && oldToOwner ≠ 0 then
                  let mp := takeoverPlayerTiles s.playerCount map2 s.playerTiles oldToOwner s.currentPlayer
                  { s with map := mp.1, playerTiles := mp.2 }
                else { s with map := map2, playerTiles := s.playerTiles }
              let pt2 := updateTileOwnership s.playerCount state2.playerTiles toX toY
                oldToOwner s.currentPlayer
              (true, checkWinCondition { state2 with playerTiles := pt2 })
            else
              -- failed attack on a plain tile: defender keeps the surplus
              let map2 := setTile map1 toX toY { toTile with units := -result }
              (true, checkWinCondition { s with map := map2 })

/-- `growUnitsPerTurn`: owned Strongholds and Capitals gain one unit. -/
def growUnitsPerTurn (m : GameMap) : GameMap :=
  mapTiles (fun t =>
    if t.owner ≠ 0 ∧ (t.type = 2 ∨ t.type = 3) then { t with units := t.units + 1 } else t) m

/-- `growUnitsPerRound`: owned Blank tiles gain one unit. -/
def growUnitsPerRound (m : GameMap) : GameMap :=
  mapTiles (fun t =>
    if t.owner ≠ 0 ∧ t.type = 0 then { t with units := t.units + 1 } else t) m

/-- `nextTurn`: cycle the current player; on wrap-around increment `turn`,
start a new round every 25 turns (round growth), then apply per-turn
growth. -/
def nextTurn (s : GameState) : GameState :=
  if s.gameOver then s
  else
    let cp := s.currentPlayer + 1
    if cp > s.playerCount then
      let turn := s.turn + 1
      let round := if (turn - 1) % 25 = 0 ∧ turn > 1 then s.round + 1 else s.round
      let map1 := if (turn - 1) % 25 = 0 then growUnitsPerRound s.map else s.map
      let map2 := growUnitsPerTurn map1
      { s with currentPlayer := 1, turn := turn, round := round, map := map2 }
    else { s with currentPlayer := cp }

end GameEngine

/-- A move record `{ fromX, fromY, toX, toY, moveType }`. -/
structure Move where
  fromX : Nat
  fromY : Nat
  toX : Nat
  toY : Nat
  moveType : String
deriving Repr, DecidableEq

namespace RandomAI

/-- `getOwnMovableTiles` (index path): entries of the player's index whose
tile has `units ≥ 2` and is not a Mountain.  The JS entry carries an alias
of the grid tile; the embedding looks the tile up at the stored
coordinates. -/
def getOwnMovableTiles (m : GameMap) (playerId : Int) (pt : PT) : List (Nat × Nat) :=
  (pt playerId).filter fun c =>
    match tileAt m c.1 c.2 with
    | some t => !(t.units < 2) && !(t.type == 1)
    | none => false

/-- `getAdjacentTargets`: the in-bounds, non-Mountain orthogonal
neighbours of `(fromX, fromY)`. -/
def getAdjacentTargets (m : GameMap) (fromX fromY : Nat) : List (Nat × Nat) :=
  ([((0 : Int), (-1 : Int)), (0, 1), (-1, 0), (1, 0)]).filterMap fun d =>
    let toX : Int := (fromX : Int) + d.1
    let toY : Int := (fromY : Int) + d.2
    if 0 ≤ toX ∧ toX < (m.width : Int) ∧ 0 ≤ toY ∧ toY < (m.height : Int) then
      match tileAt m toX.toNat toY.toNat with
      | some t => if t.type == 1 then none else some (toX.toNat, toY.toNat)
      | none => none
    else none

/-- `RandomAI.getDecision`: pick a movable source tile, a neighbour target
and a move type.  The three `Math.random()` draws are abstracted by the
parameters `c1`, `c2` (an arbitrary index, reduced modulo the list length
exactly as `Math.floor(random * length)` ranges over `0..length-1`) and
`coin` (the `Math.random() < 0.5` half/max toss). -/
def getDecision (s : GameState) (c1 c2 : Nat) (coin : Bool) : Option Move :=
  let ownTiles := getOwnMovableTiles s.map s.currentPlayer s.playerTiles
  if ownTiles.isEmpty then none
  else
    let fromTile := ownTiles.getD (c1 % ownTiles.length) (0, 0)
    let targets := getAdjacentTargets s.map fromTile.1 fromTile.2
    if targets.isEmpty then none
    else
      let toTile := targets.getD (c2 % targets.length) (0, 0)
      some { fromX := fromTile.1, fromY := fromTile.2,
             toX := toTile.1, toY := toTile.2,
             moveType := if coin then "half" else "max" }

end RandomAI

namespace MinimaxAI

/-- The simulator's `updateTileOwnership` (on a cloned state): like the
engine's, but with no `≤ playerCount` upper guard (the JS version creates a
missing key on demand). -/
def updateTileOwnership (pt : PT) (x y : Nat) (oldOwner newOwner : Int) : PT :=
  let pt1 :=
    if 0 < oldOwner then
      ptUpdate pt oldOwner ((pt oldOwner).eraseP fun c => c.1 == x && c.2 == y)
    else pt
  if 0 < newOwner then
    ptUpdate pt1 newOwner (pt1 newOwner ++ [(x, y)])
  else pt1

/-- The simulator's simplified `checkWinCondition`: count players
`1..playerCount` with a non-empty index; exactly one alive player ends the
game with that player as winner. -/
def checkWinCondition (s : GameState) : GameState :=
  let alive := (intRange 1 s.playerCount).filter fun id => !(s.playerTiles id).isEmpty
  match alive with
  | [w] => { s with gameOver := true, winner := some w }
  | _ => s

/-- `MinimaxAI.applyMove(gameState, move, playerId)`: the search's private
re-derivation of move resolution, applied to a (deep-cloned) state.  No
validation; neutral Strongholds with a positive numeric `captureCost` go
through the unlock logic; every enemy tile needs `result ≥ 1` to be
captured; a captured Capital is demoted with no takeover cascade.  The
target tile is re-read from the grid after the source write, matching the
JS alias semantics. -/
def applyMove (s : GameState) (mv : Move) (playerId : Int) : GameState :=
  match tileAt s.map mv.fromX mv.fromY with
  | none => s
  | some fromTile =>
    let moveUnits : Int :=
      if mv.moveType == "half" then Int.fdiv fromTile.units 2 else fromTile.units - 1
    let map1 := setTile s.map mv.fromX mv.fromY
      { fromTile with units := fromTile.units - moveUnits }
    match tileAt map1 mv.toX mv.toY with
    | none => s
    | some toTile =>
      if toTile.owner == playerId then
        -- own tile: merge
        let map2 := setTile map1 mv.toX mv.toY { toTile with units := toTile.units + moveUnits }
        checkWinCondition { s with map := map2 }
      else if toTile.owner == 0 then
        match toTile.captureCost with
        | some cost =>
          if toTile.type == 2 ∧ 0 < cost then
            -- neutral Stronghold: unlock
            let usedForUnlock := min moveUnits cost
            let remainingAfterUnlock := moveUnits - usedForUnlock
            let newCost := cost - usedForUnlock
            if newCost ≤ 0 then
              let map2 := setTile map1 mv.toX mv.toY
                { toTile with owner := playerId, units := remainingAfterUnlock,
                              captureCost := some newCost }
              checkWinCondition { s with
                map := map2
                playerTiles := updateTileOwnership s.playerTiles mv.toX mv.toY 0 playerId }
            else
              let map2 := setTile map1 mv.toX mv.toY { toTile with captureCost := some newCost }
              checkWinCondition { s with map := map2 }
          else
            let map2 := setTile map1 mv.toX mv.toY
              { toTile with owner := playerId, units := moveUnits }
            checkWinCondition { s with
              map := map2
              playerTiles := updateTileOwnership s.playerTiles mv.toX mv.toY 0 playerId }
        | none =>
          -- plain neutral tile: direct occupation
          let map2 := setTile map1 mv.toX mv.toY
            { toTile with owner := playerId, units := moveUnits }
          checkWinCondition { s with
            map := map2
            playerTiles := updateTileOwnership s.playerTiles mv.toX mv.toY 0 playerId }
      else
        -- enemy tile: combat, uniform result ≥ 1 capture threshold
        let result := moveUnits - toTile.units
        let wasCapital := toTile.type == 3
        if 1 ≤ result then
          let oldOwner := toTile.owner
          let t1 := { toTile with owner := playerId, units := result }
          let t2 := if wasCapital then { t1 with type := 2 } else t1
          let map2 := setTile map1 mv.toX mv.toY t2
          checkWinCondition { s with
            map := map2
            playerTiles := updateTileOwnership s.playerTiles mv.toX mv.toY oldOwner playerId }
        else
          let map2 := setTile map1 mv.toX mv.toY
            { toTile with units := max 0 (toTile.units - moveUnits) }
          checkWinCondition { s with map := map2 }

/-- `simulateMove`: deep-clone then `applyMove`; cloning is the identity in
a functional embedding. -/
def simulateMove (s : GameState) (mv : Move) (playerId : Int) : GameState :=
  applyMove s mv playerId

/-- The try/catch shell of `MinimaxAI.getDecision`.  The minimax search
itself (floating-point heuristic scoring) is abstracted by `searchOutcome`:
`Except.ok r` models a normal return of `{score, move := r}`, and
`Except.error e` models a thrown exception, which the `catch` masks.  Both
the `move = null` return and the caught exception fall through to the
`RandomAI` helper, as does a zero search depth. -/
def getDecisionWith (maxDepth : Int) (s : GameState)
    (searchOutcome : Except String (Option Move)) (c1 c2 : Nat) (coin : Bool) :
    Option Move :=
  if maxDepth == 0 then RandomAI.getDecision s c1 c2 coin
  else
    match searchOutcome with
    | .ok (some mv) => some mv
    | .ok none => RandomAI.getDecision s c1 c2 coin
    | .error _ => RandomAI.getDecision s c1 c2 coin

end MinimaxAI

/-! ## Basic facts about the grid and index primitives -/

/-- A rectangular grid: `height` rows of `width` tiles. -/
def ShapeOk (m : GameMap) : Prop :=
  m.tiles.length = m.height ∧ ∀ row ∈ m.tiles, row.length = m.width

instance (m : GameMap) : Decidable (ShapeOk m) := by
  unfold ShapeOk; infer_instance

theorem setTile_width (m : GameMap) (x y : Nat) (t : Tile) :
    (setTile m x y t).width = m.width := rfl

theorem setTile_height (m : GameMap) (x y : Nat) (t : Tile) :
    (setTile m x y t).height = m.height := rfl

theorem setTile_capitals (m : GameMap) (x y : Nat) (t : Tile) :
    (setTile m x y t).capitals = m.capitals := rfl

theorem tileAt_setTile_self {m : GameMap} {x y : Nat} {t0 : Tile}
    (h : tileAt m x y = some t0) (t : Tile) :
    tileAt (setTile m x y t) x y = some t := by
  unfold tileAt setTile at *
  cases hy : m.tiles[y]? with
  | none => rw [hy] at h; simp at h
  | some row =>
    rw [hy] at h
    simp only [Option.some_bind] at h
    have hylt : y < m.tiles.length := (List.getElem?_eq_some_iff.1 hy).1
    have hxlt : x < row.length := (List.getElem?_eq_some_iff.1 h).1
    have hrow : m.tiles.getD y [] = row := by
      simp [List.getD_eq_getElem?_getD, hy]
    simp only [hrow, List.getElem?_set_self hylt, Option.some_bind]
    simp [List.getElem?_set_self hxlt]

theorem tileAt_setTile_ne {m : GameMap} {x y a b : Nat} (t : Tile)
    (h : (a, b) ≠ (x, y)) :
    tileAt (setTile m x y t) a b = tileAt m a b := by
  unfold tileAt setTile
  simp only [List.getElem?_set]
  by_cases hb : y = b
  · subst hb
    have hx : x ≠ a := fun hc => h (by simp [hc])
    simp only [if_pos rfl]
    by_cases hy : y < m.tiles.length
    · simp only [if_pos hy]
      have hrow : m.tiles.getD y [] = m.tiles[y] := by
        simp [List.getD_eq_getElem?_getD, List.getElem?_eq_getElem hy]
      simp [hrow, List.getElem?_set_ne hx, List.getElem?_eq_getElem hy]
    · simp only [if_neg hy]
      have hnone : m.tiles[y]? = none := by
        simp only [List.getElem?_eq_none_iff]; omega
      simp [hnone]
  · simp [if_neg hb]

theorem shapeOk_setTile {m : GameMap} (hm : ShapeOk m) (x y : Nat) (t : Tile) :
    ShapeOk (setTile m x y t) := by
  obtain ⟨hlen, hrows⟩ := hm
  constructor
  · simpa [setTile] using hlen
  · intro row hrow
    by_cases hy : y < m.tiles.length
    · rcases List.mem_or_eq_of_mem_set hrow with h | h
      · exact hrows _ h
      · subst h
        rw [List.length_set]
        have : m.tiles.getD y [] = m.tiles[y] := by
          simp [List.getD_eq_getElem?_getD, List.getElem?_eq_getElem hy]
        rw [this]; exact hrows _ (List.getElem_mem hy)
    · rw [show (setTile m x y t).tiles = m.tiles from
        List.set_eq_of_length_le (by omega)] at hrow
      exact hrows _ hrow

theorem tileAt_mapTiles (f : Tile → Tile) (m : GameMap) (x y : Nat) :
    tileAt (mapTiles f m) x y = (tileAt m x y).map f := by
  unfold tileAt mapTiles
  simp only [List.getElem?_map]
  cases m.tiles[y]? with
  | none => rfl
  | some row => simp [List.getElem?_map]

theorem mapTiles_shape {m : GameMap} (hm : ShapeOk m) (f : Tile → Tile) :
    ShapeOk (mapTiles f m) := by
  obtain ⟨hlen, hrows⟩ := hm
  refine ⟨by simpa [mapTiles] using hlen, ?_⟩
  intro row hrow
  simp only [mapTiles, List.mem_map] at hrow
  obtain ⟨r, hr, hre⟩ := hrow
  subst hre
  simpa using hrows r hr

/-- The `findIndex`/`splice` removal in `updateTileOwnership` removes the
first entry equal to `(x, y)`. -/
theorem eraseP_pair (x y : Nat) (l : List (Nat × Nat)) :
    (l.eraseP fun c => c.1 == x && c.2 == y) = l.erase (x, y) := by
  induction l with
  | nil => rfl
  | cons a l ih =>
    rcases a with ⟨a1, a2⟩
    by_cases h1 : a1 = x
    · by_cases h2 : a2 = y
      · subst h1; subst h2
        simp [List.eraseP_cons, List.erase_cons]
      · simp [List.eraseP_cons, List.erase_cons, h2, ih, Prod.ext_iff]
    · simp [List.eraseP_cons, List.erase_cons, h1, ih, Prod.ext_iff]

theorem intRange_mem (a b p : Int) : p ∈ intRange a b ↔ a ≤ p ∧ p ≤ b := by
  unfold intRange
  simp only [List.mem_map, List.mem_range]
  constructor
  · rintro ⟨i, hi, rfl⟩
    omega
  · rintro ⟨h1, h2⟩
    exact ⟨(p - a).toNat, by omega, by omega⟩

theorem allCoords_mem (m : GameMap) (c : Nat × Nat) :
    c ∈ allCoords m ↔ c.1 < m.width ∧ c.2 < m.height := by
  unfold allCoords
  rcases c with ⟨x, y⟩
  simp only [List.mem_flatMap, List.mem_map, List.mem_range]
  constructor
  · rintro ⟨y0, hy0, x0, hx0, heq⟩
    cases heq
    exact ⟨hx0, hy0⟩
  · rintro ⟨hx, hy⟩
    exact ⟨y, hy, x, hx, rfl⟩

theorem allCoords_nodup (m : GameMap) : (allCoords m).Nodup := by
  unfold allCoords
  rw [List.nodup_flatMap]
  refine ⟨fun y _ => ?_, ?_⟩
  · refine (List.nodup_range _).map ?_
    intro a b h
    simpa using h
  · refine (List.nodup_range _).imp ?_
    intro y1 y2 hne
    simp only [Function.onFun, List.disjoint_left, List.mem_map, List.mem_range]
    rintro c ⟨x1, hx1, heq1⟩ ⟨x2, hx2, heq2⟩
    subst heq1
    have h2 : y2 = y1 := by simpa using congrArg Prod.snd heq2
    exact hne h2.symm

theorem engineUpd_other (n : Int) (pt : PT) (x y : Nat) (o w q : Int)
    (ho : q ≠ o) (hw : q ≠ w) :
    GameEngine.updateTileOwnership n pt x y o w q = pt q := by
  by_cases h1 : 0 < o ∧ o ≤ n <;> by_cases h2 : 0 < w ∧ w ≤ n <;>
    simp [GameEngine.updateTileOwnership, h1, h2, ptUpdate, ho, hw]

theorem engineUpd_old (n : Int) (pt : PT) (x y : Nat) (o w : Int)
    (h1 : 0 < o) (h2 : o ≤ n) (hne : o ≠ w) :
    GameEngine.updateTileOwnership n pt x y o w o = (pt o).erase (x, y) := by
  by_cases hw : 0 < w ∧ w ≤ n <;>
    simp [GameEngine.updateTileOwnership, h1, h2, hw, ptUpdate, hne, eraseP_pair]

theorem engineUpd_new (n : Int) (pt : PT) (x y : Nat) (o w : Int)
    (h1 : 0 < w) (h2 : w ≤ n) (hne : w ≠ o) :
    GameEngine.updateTileOwnership n pt x y o w w = pt w ++ [(x, y)] := by
  by_cases ho : 0 < o ∧ o ≤ n <;>
    simp [GameEngine.updateTileOwnership, h1, h2, ho, ptUpdate, hne]

theorem engineUpd_oldOut (n : Int) (pt : PT) (x y : Nat) (o w q : Int)
    (ho : ¬ (0 < o ∧ o ≤ n)) (hw : q ≠ w) :
    GameEngine.updateTileOwnership n pt x y o w q = pt q := by
  by_cases h2 : 0 < w ∧ w ≤ n <;>
    simp [GameEngine.updateTileOwnership, ho, h2, ptUpdate, hw]

theorem aiUpd_other (pt : PT) (x y : Nat) (o w q : Int)
    (ho : q ≠ o) (hw : q ≠ w) :
    MinimaxAI.updateTileOwnership pt x y o w q = pt q := by
  by_cases h1 : 0 < o <;> by_cases h2 : 0 < w <;>
    simp [MinimaxAI.updateTileOwnership, h1, h2, ptUpdate, ho, hw]

theorem aiUpd_oldOut (pt : PT) (x y : Nat) (o w q : Int)
    (ho : ¬ 0 < o) (hw : q ≠ w) :
    MinimaxAI.updateTileOwnership pt x y o w q = pt q := by
  by_cases h2 : 0 < w <;>
    simp [MinimaxAI.updateTileOwnership, ho, h2, ptUpdate, hw]

theorem aiUpd_new (pt : PT) (x y : Nat) (o w : Int)
    (h1 : 0 < w) (hne : w ≠ o) :
    MinimaxAI.updateTileOwnership pt x y o w w = pt w ++ [(x, y)] := by
  by_cases ho : 0 < o <;>
    simp [MinimaxAI.updateTileOwnership, h1, ho, ptUpdate, hne]

/-- With a neutral old owner and an in-range new owner the engine's and the
simulator's index updates agree. -/
theorem engineUpd_eq_aiUpd_neutral (n : Int) (pt : PT) (x y : Nat) {w : Int}
    (h1 : 0 < w) (h2 : w ≤ n) :
    GameEngine.updateTileOwnership n pt x y 0 w = MinimaxAI.updateTileOwnership pt x y 0 w := by
  have hw0 : w ≠ 0 := by omega
  funext q
  by_cases hq : q = w
  · rw [hq, engineUpd_new n pt x y 0 w h1 h2 hw0, aiUpd_new pt x y 0 w h1 hw0]
  · rw [engineUpd_oldOut n pt x y 0 w q (by omega) hq, aiUpd_oldOut pt x y 0 w q (by omega) hq]

theorem engineCheckWin_map (s : GameState) :
    (GameEngine.checkWinCondition s).map = s.map := by
  unfold GameEngine.checkWinCondition
  cases GameEngine.checkWinLoop s.map s.map.capitals <;> rfl

theorem engineCheckWin_playerTiles (s : GameState) :
    (GameEngine.checkWinCondition s).playerTiles = s.playerTiles := by
  unfold GameEngine.checkWinCondition
  cases GameEngine.checkWinLoop s.map s.map.capitals <;> rfl

theorem engineCheckWin_currentPlayer (s : GameState) :
    (GameEngine.checkWinCondition s).currentPlayer = s.currentPlayer := by
  unfold GameEngine.checkWinCondition
  cases GameEngine.checkWinLoop s.map s.map.capitals <;> rfl

theorem engineCheckWin_playerCount (s : GameState) :
    (GameEngine.checkWinCondition s).playerCount = s.playerCount := by
  unfold GameEngine.checkWinCondition
  cases GameEngine.checkWinLoop s.map s.map.capitals <;> rfl

theorem engineCheckWin_turn (s : GameState) :
    (GameEngine.checkWinCondition s).turn = s.turn := by
  unfold GameEngine.checkWinCondition
  cases GameEngine.checkWinLoop s.map s.map.capitals <;> rfl

theorem engineCheckWin_round (s : GameState) :
    (GameEngine.checkWinCondition s).round = s.round := by
  unfold GameEngine.checkWinCondition
  cases GameEngine.checkWinLoop s.map s.map.capitals <;> rfl

theorem aiCheckWin_map (s : GameState) :
    (MinimaxAI.checkWinCondition s).map = s.map := by
  unfold MinimaxAI.checkWinCondition
  rcases (intRange 1 s.playerCount).filter (fun id => !(s.playerTiles id).isEmpty) with
    _ | ⟨w, _ | ⟨b, l⟩⟩ <;> rfl

theorem aiCheckWin_playerTiles (s : GameState) :
    (MinimaxAI.checkWinCondition s).playerTiles = s.playerTiles := by
  unfold MinimaxAI.checkWinCondition
  rcases (intRange 1 s.playerCount).filter (fun id => !(s.playerTiles id).isEmpty) with
    _ | ⟨w, _ | ⟨b, l⟩⟩ <;> rfl

/-! ## The state invariant -/

/-- Owners lie in `0..playerCount`. -/
def OwnersOk (m : GameMap) (n : Int) : Prop :=
  ∀ row ∈ m.tiles, ∀ t ∈ row, 0 ≤ t.owner ∧ t.owner ≤ n

/-- Unit counts are non-negative. -/
def UnitsOk (m : GameMap) : Prop :=
  ∀ row ∈ m.tiles, ∀ t ∈ row, 0 ≤ t.units

/-- The central index invariant: for every player `1..playerCount`, the
index holds exactly the owned coordinates, without duplicates. -/
def IndexOk (s : GameState) : Prop :=
  ∀ p ∈ intRange 1 s.playerCount,
    (s.playerTiles p).Nodup ∧
    (∀ c ∈ s.playerTiles p, tileOwnedBy s.map c p = true) ∧
    (∀ c ∈ allCoords s.map, tileOwnedBy s.map c p = true → c ∈ s.playerTiles p)

/-- Everything the engine maintains about a live state. -/
def StateOk (s : GameState) : Prop :=
  ShapeOk s.map ∧ OwnersOk s.map s.playerCount ∧ UnitsOk s.map ∧
  1 ≤ s.playerCount ∧ 1 ≤ s.currentPlayer ∧ s.currentPlayer ≤ s.playerCount ∧
  IndexOk s

/-- A valid generated map for `n` players. -/
def MapOk (m : GameMap) (n : Int) : Prop :=
  ShapeOk m ∧ OwnersOk m n ∧ UnitsOk m ∧ 1 ≤ n

instance (m : GameMap) (n : Int) : Decidable (OwnersOk m n) := by
  unfold OwnersOk; infer_instance

instance (m : GameMap) : Decidable (UnitsOk m) := by
  unfold UnitsOk; infer_instance

instance (s : GameState) : Decidable (IndexOk s) := by
  unfold IndexOk; infer_instance

instance (s : GameState) : Decidable (StateOk s) := by
  unfold StateOk; infer_instance

instance (m : GameMap) (n : Int) : Decidable (MapOk m n) := by
  unfold MapOk; infer_instance

/-! ## Validity and no-op facts -/

theorem makeMove_of_not_valid {s : GameState} {a b c d : Nat} (mt : String)
    (h : GameEngine.isValidMove s a b c d = false) :
    GameEngine.makeMove s a b c d mt = (false, s) := by
  unfold GameEngine.makeMove
  by_cases hg : s.gameOver <;> simp [hg, h]

theorem isValidMove_spec {s : GameState} {a b c d : Nat}
    (h : GameEngine.isValidMove s a b c d = true) :
    ∃ ft tt, tileAt s.map a b = some ft ∧ tileAt s.map c d = some tt ∧
      ft.owner = s.currentPlayer ∧ 2 ≤ ft.units ∧ tt.type ≠ 1 ∧
      manhattan a b c d = 1 := by
  unfold GameEngine.isValidMove at h
  cases hf : tileAt s.map a b with
  | none => rw [hf] at h; cases ht : tileAt s.map c d <;> rw [ht] at h <;> cases h
  | some ft =>
    rw [hf] at h
    cases ht : tileAt s.map c d with
    | none => rw [ht] at h; cases h
    | some tt =>
      rw [ht] at h
      simp only [Bool.and_eq_true, beq_iff_eq, Bool.not_eq_eq_eq_not, Bool.not_true,
        decide_eq_false_iff_not, not_lt, Bool.not_eq_true] at h
      obtain ⟨⟨⟨ho, hu⟩, hm⟩, hd⟩ := h
      refine ⟨ft, tt, rfl, rfl, ho, hu, ?_, ?_⟩
      · intro hc
        simp [hc] at hm
      · simpa using hd

theorem isValidMove_ne (s : GameState) {a b c d : Nat}
    (h : GameEngine.isValidMove s a b c d = true) : (a, b) ≠ (c, d) := by
  obtain ⟨ft, tt, hf, ht, ho, hu, hm, hd⟩ := isValidMove_spec h
  intro hc
  rw [Prod.ext_iff] at hc
  obtain ⟨h1, h2⟩ := hc
  subst h1; subst h2
  unfold manhattan at hd
  omega

/-! ## Concrete states used by witnesses and counterexamples -/

/-- A Blank tile. -/
def blankTile (o u : Int) : Tile := { type := 0, owner := o, units := u, captureCost := none }

/-- A small 2 × 2 two-player map: player 1 strong at the origin, player 2
holding a plain tile and a Capital. -/
def demoMap : GameMap :=
  { width := 2, height := 2,
    tiles := [[blankTile 1 4, blankTile 2 3],
              [blankTile 0 0, { type := 3, owner := 2, units := 5, captureCost := none }]],
    capitals := [⟨1, 1, 2⟩] }

/-- The engine state over `demoMap`. -/
def demoState : GameState := GameEngine.initState demoMap 2

/-- A finished-game state used to exercise the terminal freeze. -/
def overState : GameState :=
  { GameEngine.initState demoMap 2 with gameOver := true, winner := some 1 }

/-- C10: once `gameOver` is true the engine is frozen: every `makeMove`
call returns `false` and leaves the state untouched, and `nextTurn`
returns the state unchanged. -/
theorem frozen_after_gameOver (s : GameState) (h : s.gameOver = true) :
    (∀ (fromX fromY toX toY : Nat) (mt : String),
        GameEngine.makeMove s fromX fromY toX toY mt = (false, s)) ∧
    GameEngine.nextTurn s = s := by
  constructor
  · intro a b c d mt
    unfold GameEngine.makeMove
    simp [h]
  · unfold GameEngine.nextTurn
    simp [h]

theorem frozen_after_gameOver_witness :
    overState.gameOver = true ∧
    ((∀ (fromX fromY toX toY : Nat) (mt : String),
        GameEngine.makeMove overState fromX fromY toX toY mt = (false, overState)) ∧
      GameEngine.nextTurn overState = overState) :=
  ⟨rfl, frozen_after_gameOver overState rfl⟩

/-- C6: a move that fails validation (missing source or target tile, source
not owned by the current player, source understrength, Mountain target, or
non-adjacent tiles) makes `makeMove` return `false` with the state exactly
unchanged (and the embedding is a total function: no exception is
possible). -/
theorem makeMove_invalid_noop (s : GameState) (fromX fromY toX toY : Nat) (mt : String)
    (h : tileAt s.map fromX fromY = none ∨
         tileAt s.map toX toY = none ∨
         (∃ ft, tileAt s.map fromX fromY = some ft ∧ ft.owner ≠ s.currentPlayer) ∨
         (∃ ft, tileAt s.map fromX fromY = some ft ∧ ft.units < 2) ∨
         (∃ tt, tileAt s.map toX toY = some tt ∧ tt.type = 1) ∨
         manhattan fromX fromY toX toY ≠ 1) :
    GameEngine.makeMove s fromX fromY toX toY mt = (false, s) := by
  apply makeMove_of_not_valid
  cases hv : GameEngine.isValidMove s fromX fromY toX toY with
  | false => rfl
  | true =>
    exfalso
    obtain ⟨ft, tt, hf, ht, ho, hu, hm, hd⟩ := isValidMove_spec hv
    rcases h with h | h | h | h | h | h
    · rw [hf] at h; cases h
    · rw [ht] at h; cases h
    · obtain ⟨ft2, hft2, h2⟩ := h
      rw [hf] at hft2; cases hft2; exact h2 ho
    · obtain ⟨ft2, hft2, h2⟩ := h
      rw [hf] at hft2; cases hft2; omega
    · obtain ⟨tt2, htt2, h2⟩ := h
      rw [ht] at htt2; cases htt2; exact hm h2
    · exact h hd

theorem makeMove_invalid_noop_witness :
    manhattan 0 0 1 1 ≠ 1 ∧
    GameEngine.makeMove demoState 0 0 1 1 "max" = (false, demoState) :=
  ⟨by decide,
   makeMove_invalid_noop demoState 0 0 1 1 "max"
     (Or.inr (Or.inr (Or.inr (Or.inr (Or.inr (by decide))))))⟩

theorem tileAt_mem {m : GameMap} {x y : Nat} {t : Tile}
    (h : tileAt m x y = some t) : ∃ row ∈ m.tiles, t ∈ row := by
  unfold tileAt at h
  cases hy : m.tiles[y]? with
  | none => rw [hy] at h; cases h
  | some row =>
    rw [hy] at h
    simp only [Option.some_bind] at h
    exact ⟨row, List.getElem?_mem hy, List.getElem?_mem h⟩

/-- C7: `nextTurn` cycles `currentPlayer` through `1..playerCount`.  When no
wrap happens nothing else changes; exactly on wrap-around `turn` increments
and every player-owned Stronghold/Capital gains one unit; a new round starts
(round increments, player-owned Blank tiles gain one unit) exactly every 25
turn increments; neutral tiles never grow. -/
theorem nextTurn_progression (s : GameState)
    (hgo : s.gameOver = false)
    (hcp1 : 1 ≤ s.currentPlayer) (hcpn : s.currentPlayer ≤ s.playerCount)
    (hturn : 1 ≤ s.turn)
    (howners : OwnersOk s.map s.playerCount) :
    (s.currentPlayer < s.playerCount →
        GameEngine.nextTurn s = { s with currentPlayer := s.currentPlayer + 1 }) ∧
    (s.currentPlayer = s.playerCount →
        (GameEngine.nextTurn s).currentPlayer = 1 ∧
        (GameEngine.nextTurn s).turn = s.turn + 1 ∧
        (GameEngine.nextTurn s).round = s.round + (if s.turn % 25 = 0 then 1 else 0) ∧
        (∀ x y t, tileAt s.map x y = some t →
          tileAt (GameEngine.nextTurn s).map x y = some { t with units := t.units +
            (if 0 < t.owner ∧ (t.type = 2 ∨ t.type = 3) then 1 else 0) +
            (if s.turn % 25 = 0 ∧ 0 < t.owner ∧ t.type = 0 then 1 else 0) })) := by
  constructor
  · intro hlt
    unfold GameEngine.nextTurn
    rw [if_neg (by simp [hgo]), if_neg (by omega)]
  · intro heq
    have hwrap : s.currentPlayer + 1 > s.playerCount := by omega
    have hsub : s.turn + 1 - 1 = s.turn := by omega
    have hgt : s.turn + 1 > 1 := by omega
    have hnt : GameEngine.nextTurn s = { s with
        currentPlayer := 1
        turn := s.turn + 1
        round := if s.turn % 25 = 0 then s.round + 1 else s.round
        map := GameEngine.growUnitsPerTurn
          (if s.turn % 25 = 0 then GameEngine.growUnitsPerRound s.map else s.map) } := by
      unfold GameEngine.nextTurn
      rw [if_neg (by simp [hgo]), if_pos hwrap]
      simp only [hsub, hgt, and_true]
    rw [hnt]
    refine ⟨rfl, rfl, ?_, ?_⟩
    · by_cases h25 : s.turn % 25 = 0 <;> simp [h25]
    · intro x y t ht
      have hbound : 0 ≤ t.owner := by
        obtain ⟨row, hrow, htm⟩ := tileAt_mem ht
        exact (howners row hrow t htm).1
      by_cases h25 : s.turn % 25 = 0
      · unfold GameEngine.growUnitsPerTurn GameEngine.growUnitsPerRound
        simp only [h25, ite_true, tileAt_mapTiles, ht, Option.map_some]
        rcases t with ⟨ty, ow, un, cc⟩
        by_cases hown : ow = 0
        · simp [hown, h25]
        · by_cases hty0 : ty = 0
          · simp only at hbound ⊢
            simp [hty0, hown, h25, show (0:Int) ≠ 2 by omega, show (0:Int) ≠ 3 by omega,
              show 0 < ow by omega]
          · by_cases hty23 : ty = 2 ∨ ty = 3
            · simp only at hbound ⊢
              simp [hty23, hown, h25, hty0, show 0 < ow by omega]
            · simp only at hbound ⊢
              simp [hown, h25, hty0, hty23]
      · unfold GameEngine.growUnitsPerTurn
        simp only [h25, ite_false, tileAt_mapTiles, ht, Option.map_some]
        rcases t with ⟨ty, ow, un, cc⟩
        by_cases hown : ow = 0
        · simp [hown, h25]
        · by_cases hty23 : ty = 2 ∨ ty = 3
          · simp only at hbound ⊢
            simp [hty23, hown, h25, show 0 < ow by omega]
          · simp only at hbound ⊢
            simp [hown, h25, hty23]

/-! ## Branch equations for `makeMove` on the valid path -/

/-- The units sent by a move (`Math.floor(units/2)` for `half`, all but one
otherwise). -/
def moveUnitsOf (mt : String) (u : Int) : Int :=
  if mt == "half" then Int.fdiv u 2 else u - 1

theorem moveUnitsOf_pos (mt : String) {u : Int} (h : 2 ≤ u) :
    1 ≤ moveUnitsOf mt u := by
  unfold moveUnitsOf
  split
  · rw [Int.fdiv_eq_ediv _ (by omega)]
    omega
  · omega

theorem moveUnitsOf_lt (mt : String) {u : Int} (h : 2 ≤ u) :
    1 ≤ u - moveUnitsOf mt u := by
  unfold moveUnitsOf
  split
  · rw [Int.fdiv_eq_ediv _ (by omega)]
    omega
  · omega

theorem makeMove_merge_eq (s : GameState) (a b c d : Nat) (mt : String)
    (hgo : s.gameOver = false) (hv : GameEngine.isValidMove s a b c d = true)
    {ft tt : Tile} (hf : tileAt s.map a b = some ft) (ht : tileAt s.map c d = some tt)
    (hown : tt.owner = s.currentPlayer) (hcp : s.currentPlayer ≠ 0) :
    GameEngine.makeMove s a b c d mt =
      (true, GameEngine.checkWinCondition { s with
        map := setTile (setTile s.map a b { ft with units := ft.units - moveUnitsOf mt ft.units })
          c d { tt with units := tt.units + moveUnitsOf mt ft.units } }) := by
  obtain ⟨ft2, tt2, hf2, ht2, ho, hu, hm, hd⟩ := isValidMove_spec hv
  rw [hf] at hf2
  cases hf2
  have hne := isValidMove_ne s hv
  have hne2 : (c, d) ≠ (a, b) := fun hcc => hne hcc.symm
  have ht1 : tileAt (setTile s.map a b { ft with units := ft.units - moveUnitsOf mt ft.units }) c d
      = some tt := by rw [tileAt_setTile_ne _ hne2, ht]
  unfold GameEngine.makeMove
  rw [if_neg (by simp [hgo]), if_neg (by simp [hv]), hf]
  simp only [show (if mt == "half" then Int.fdiv ft.units 2 else ft.units - 1) = moveUnitsOf mt ft.units
      from rfl,
    if_neg (show ¬ moveUnitsOf mt ft.units < 1 by have := moveUnitsOf_pos mt hu; omega),
    if_neg (show ¬ ft.units - moveUnitsOf mt ft.units < 1 by have := moveUnitsOf_lt mt hu; omega),
    ht1]
  rw [if_neg (show ¬ (tt.owner == 0) = true by simp [hown, hcp]),
    if_pos (show (tt.owner == s.currentPlayer) = true by simp [hown])]

theorem makeMove_neutral_eq (s : GameState) (a b c d : Nat) (mt : String)
    (hgo : s.gameOver = false) (hv : GameEngine.isValidMove s a b c d = true)
    {ft tt : Tile} (hf : tileAt s.map a b = some ft) (ht : tileAt s.map c d = some tt)
    (hown : tt.owner = 0) :
    GameEngine.makeMove s a b c d mt =
      (true, GameEngine.checkWinCondition { s with
        map := setTile (setTile s.map a b { ft with units := ft.units - moveUnitsOf mt ft.units })
          c d { tt with owner := s.currentPlayer, units := moveUnitsOf mt ft.units }
        playerTiles := GameEngine.updateTileOwnership s.playerCount s.playerTiles c d 0
          s.currentPlayer }) := by
  obtain ⟨ft2, tt2, hf2, ht2, ho, hu, hm, hd⟩ := isValidMove_spec hv
  rw [hf] at hf2
  cases hf2
  have hne := isValidMove_ne s hv
  have hne2 : (c, d) ≠ (a, b) := fun hcc => hne hcc.symm
  have ht1 : tileAt (setTile s.map a b { ft with units := ft.units - moveUnitsOf mt ft.units }) c d
      = some tt := by rw [tileAt_setTile_ne _ hne2, ht]
  unfold GameEngine.makeMove
  rw [if_neg (by simp [hgo]), if_neg (by simp [hv]), hf]
  simp only [show (if mt == "half" then Int.fdiv ft.units 2 else ft.units - 1) = moveUnitsOf mt ft.units
      from rfl,
    if_neg (show ¬ moveUnitsOf mt ft.units < 1 by have := moveUnitsOf_pos mt hu; omega),
    if_neg (show ¬ ft.units - moveUnitsOf mt ft.units < 1 by have := moveUnitsOf_lt mt hu; omega),
    ht1]
  rw [if_pos (show (tt.owner == 0) = true by simp [hown])]

theorem makeMove_specialFail_eq (s : GameState) (a b c d : Nat) (mt : String)
    (hgo : s.gameOver = false) (hv : GameEngine.isValidMove s a b c d = true)
    {ft tt : Tile} (hf : tileAt s.map a b = some ft) (ht : tileAt s.map c d = some tt)
    (hown0 : tt.owner ≠ 0) (howncp : tt.owner ≠ s.currentPlayer)
    (hsp : tt.type = 3 ∨ tt.type = 2)
    (hres : moveUnitsOf mt ft.units - tt.units < 1) :
    GameEngine.makeMove s a b c d mt =
      (true, GameEngine.checkWinCondition { s with
        map := setTile (setTile s.map a b { ft with units := ft.units - moveUnitsOf mt ft.units })
          c d { tt with units := if tt.units - moveUnitsOf mt ft.units ≤ 0 then 0
            else tt.units - moveUnitsOf mt ft.units } }) := by
  obtain ⟨ft2, tt2, hf2, ht2, ho, hu, hm, hd⟩ := isValidMove_spec hv
  rw [hf] at hf2
  cases hf2
  have hne := isValidMove_ne s hv
  have hne2 : (c, d) ≠ (a, b) := fun hcc => hne hcc.symm
  have ht1 : tileAt (setTile s.map a b { ft with units := ft.units - moveUnitsOf mt ft.units }) c d
      = some tt := by rw [tileAt_setTile_ne _ hne2, ht]
  unfold GameEngine.makeMove
  rw [if_neg (by simp [hgo]), if_neg (by simp [hv]), hf]
  simp only [show (if mt == "half" then Int.fdiv ft.units 2 else ft.units - 1) = moveUnitsOf mt ft.units
      from rfl,
    if_neg (show ¬ moveUnitsOf mt ft.units < 1 by have := moveUnitsOf_pos mt hu; omega),
    if_neg (show ¬ ft.units - moveUnitsOf mt ft.units < 1 by have := moveUnitsOf_lt mt hu; omega),
    ht1]
  rw [if_neg (show ¬ (tt.owner == 0) = true by simp [hown0]),
    if_neg (show ¬ (tt.owner == s.currentPlayer) = true by simp [howncp]),
    if_pos (show ((tt.type == 3 || tt.type == 2) &&
      decide (moveUnitsOf mt ft.units - tt.units < 1)) = true by
        rcases hsp with h | h <;> simp [h, hres])]

theorem makeMove_captureStronghold_eq (s : GameState) (a b c d : Nat) (mt : String)
    (hgo : s.gameOver = false) (hv : GameEngine.isValidMove s a b c d = true)
    {ft tt : Tile} (hf : tileAt s.map a b = some ft) (ht : tileAt s.map c d = some tt)
    (hown0 : tt.owner ≠ 0) (howncp : tt.owner ≠ s.currentPlayer)
    (hsh : tt.type = 2)
    (hres : 1 ≤ moveUnitsOf mt ft.units - tt.units) :
    GameEngine.makeMove s a b c d mt =
      (true, GameEngine.checkWinCondition { s with
        map := setTile (setTile s.map a b { ft with units := ft.units - moveUnitsOf mt ft.units })
          c d { tt with owner := s.currentPlayer, units := moveUnitsOf mt ft.units - tt.units }
        playerTiles := GameEngine.updateTileOwnership s.playerCount s.playerTiles c d tt.owner
          s.currentPlayer }) := by
  obtain ⟨ft2, tt2, hf2, ht2, ho, hu, hm, hd⟩ := isValidMove_spec hv
  rw [hf] at hf2
  cases hf2
  have hne := isValidMove_ne s hv
  have hne2 : (c, d) ≠ (a, b) := fun hcc => hne hcc.symm
  have ht1 : tileAt (setTile s.map a b { ft with units := ft.units - moveUnitsOf mt ft.units }) c d
      = some tt := by rw [tileAt_setTile_ne _ hne2, ht]
  unfold GameEngine.makeMove
  rw [if_neg (by simp [hgo]), if_neg (by simp [hv]), hf]
  simp only [show (if mt == "half" then Int.fdiv ft.units 2 else ft.units - 1) = moveUnitsOf mt ft.units
      from rfl,
    if_neg (show ¬ moveUnitsOf mt ft.units < 1 by have := moveUnitsOf_pos mt hu; omega),
    if_neg (show ¬ ft.units - moveUnitsOf mt ft.units < 1 by have := moveUnitsOf_lt mt hu; omega),
    ht1]
  rw [if_neg (show ¬ (tt.owner == 0) = true by simp [hown0]),
    if_neg (show ¬ (tt.owner == s.currentPlayer) = true by simp [howncp]),
    if_neg (show ¬ ((tt.type == 3 || tt.type == 2) &&
      decide (moveUnitsOf mt ft.units - tt.units < 1)) = true by simp [hsh]; omega),
    if_pos (show 0 ≤ moveUnitsOf mt ft.units - tt.units by omega),
    if_neg (show ¬ ((tt.type == 3) && decide (tt.owner ≠ 0)) = true by simp [hsh]),
    if_neg (show ¬ ((tt.type == 3) && decide (tt.owner ≠ 0)) = true by simp [hsh])]

theorem makeMove_capturePlain_eq (s : GameState) (a b c d : Nat) (mt : String)
    (hgo : s.gameOver = false) (hv : GameEngine.isValidMove s a b c d = true)
    {ft tt : Tile} (hf : tileAt s.map a b = some ft) (ht : tileAt s.map c d = some tt)
    (hown0 : tt.owner ≠ 0) (howncp : tt.owner ≠ s.currentPlayer)
    (hpl : tt.type ≠ 3 ∧ tt.type ≠ 2)
    (hres : 0 ≤ moveUnitsOf mt ft.units - tt.units) :
    GameEngine.makeMove s a b c d mt =
      (true, GameEngine.checkWinCondition { s with
        map := setTile (setTile s.map a b { ft with units := ft.units - moveUnitsOf mt ft.units })
          c d { tt with owner := s.currentPlayer, units := moveUnitsOf mt ft.units - tt.units }
        playerTiles := GameEngine.updateTileOwnership s.playerCount s.playerTiles c d tt.owner
          s.currentPlayer }) := by
  obtain ⟨ft2, tt2, hf2, ht2, ho, hu, hm, hd⟩ := isValidMove_spec hv
  rw [hf] at hf2
  cases hf2
  have hne := isValidMove_ne s hv
  have hne2 : (c, d) ≠ (a, b) := fun hcc => hne hcc.symm
  have ht1 : tileAt (setTile s.map a b { ft with units := ft.units - moveUnitsOf mt ft.units }) c d
      = some tt := by rw [tileAt_setTile_ne _ hne2, ht]
  unfold GameEngine.makeMove
  rw [if_neg (by simp [hgo]), if_neg (by simp [hv]), hf]
  simp only [show (if mt == "half" then Int.fdiv ft.units 2 else ft.units - 1) = moveUnitsOf mt ft.units
      from rfl,
    if_neg (show ¬ moveUnitsOf mt ft.units < 1 by have := moveUnitsOf_pos mt hu; omega),
    if_neg (show ¬ ft.units - moveUnitsOf mt ft.units < 1 by have := moveUnitsOf_lt mt hu; omega),
    ht1]
  rw [if_neg (show ¬ (tt.owner == 0) = true by simp [hown0]),
    if_neg (show ¬ (tt.owner == s.currentPlayer) = true by simp [howncp]),
    if_neg (show ¬ ((tt.type == 3 || tt.type == 2) &&
      decide (moveUnitsOf mt ft.units - tt.units < 1)) = true by simp [hpl.1, hpl.2]),
    if_pos hres,
    if_neg (show ¬ ((tt.type == 3) && decide (tt.owner ≠ 0)) = true by simp [hpl.1]),
    if_neg (show ¬ ((tt.type == 3) && decide (tt.owner ≠ 0)) = true by simp [hpl.1])]

theorem makeMove_captureCapital_eq (s : GameState) (a b c d : Nat) (mt : String)
    (hgo : s.gameOver = false) (hv : GameEngine.isValidMove s a b c d = true)
    {ft tt : Tile} (hf : tileAt s.map a b = some ft) (ht : tileAt s.map c d = some tt)
    (hown0 : tt.owner ≠ 0) (howncp : tt.owner ≠ s.currentPlayer)
    (hcap : tt.type = 3)
    (hres : 1 ≤ moveUnitsOf mt ft.units - tt.units) :
    GameEngine.makeMove s a b c d mt =
      (true,
        GameEngine.checkWinCondition
          (let map2 := setTile
            (setTile s.map a b { ft with units := ft.units - moveUnitsOf mt ft.units })
            c d { tt with owner := s.currentPlayer, units := moveUnitsOf mt ft.units - tt.units,
                          type := 2 }
           let mp := GameEngine.takeoverPlayerTiles s.playerCount map2 s.playerTiles tt.owner
             s.currentPlayer
           { s with
             map := mp.1
             playerTiles := GameEngine.updateTileOwnership s.playerCount mp.2 c d tt.owner
               s.currentPlayer })) := by
  obtain ⟨ft2, tt2, hf2, ht2, ho, hu, hm, hd⟩ := isValidMove_spec hv
  rw [hf] at hf2
  cases hf2
  have hne := isValidMove_ne s hv
  have hne2 : (c, d) ≠ (a, b) := fun hcc => hne hcc.symm
  have ht1 : tileAt (setTile s.map a b { ft with units := ft.units - moveUnitsOf mt ft.units }) c d
      = some tt := by rw [tileAt_setTile_ne _ hne2, ht]
  unfold GameEngine.makeMove
  rw [if_neg (by simp [hgo]), if_neg (by simp [hv]), hf]
  simp only [show (if mt == "half" then Int.fdiv ft.units 2 else ft.units - 1) = moveUnitsOf mt ft.units
      from rfl,
    if_neg (show ¬ moveUnitsOf mt ft.units < 1 by have := moveUnitsOf_pos mt hu; omega),
    if_neg (show ¬ ft.units - moveUnitsOf mt ft.units < 1 by have := moveUnitsOf_lt mt hu; omega),
    ht1]
  rw [if_neg (show ¬ (tt.owner == 0) = true by simp [hown0]),
    if_neg (show ¬ (tt.owner == s.currentPlayer) = true by simp [howncp]),
    if_neg (show ¬ ((tt.type == 3 || tt.type == 2) &&
      decide (moveUnitsOf mt ft.units - tt.units < 1)) = true by simp [hcap]; omega),
    if_pos (show 0 ≤ moveUnitsOf mt ft.units - tt.units by omega)]
  rw [if_pos (show ((tt.type == 3) && decide (tt.owner ≠ 0)) = true by simp [hcap, hown0]),
    if_pos (show ((tt.type == 3) && decide (tt.owner ≠ 0)) = true by simp [hcap, hown0])]

theorem makeMove_plainFail_eq (s : GameState) (a b c d : Nat) (mt : String)
    (hgo : s.gameOver = false) (hv : GameEngine.isValidMove s a b c d = true)
    {ft tt : Tile} (hf : tileAt s.map a b = some ft) (ht : tileAt s.map c d = some tt)
    (hown0 : tt.owner ≠ 0) (howncp : tt.owner ≠ s.currentPlayer)
    (hpl : tt.type ≠ 3 ∧ tt.type ≠ 2)
    (hres : moveUnitsOf mt ft.units - tt.units < 0) :
    GameEngine.makeMove s a b c d mt =
      (true, GameEngine.checkWinCondition { s with
        map := setTile (setTile s.map a b { ft with units := ft.units - moveUnitsOf mt ft.units })
          c d { tt with units := -(moveUnitsOf mt ft.units - tt.units) } }) := by
  obtain ⟨ft2, tt2, hf2, ht2, ho, hu, hm, hd⟩ := isValidMove_spec hv
  rw [hf] at hf2
  cases hf2
  have hne := isValidMove_ne s hv
  have hne2 : (c, d) ≠ (a, b) := fun hcc => hne hcc.symm
  have ht1 : tileAt (setTile s.map a b { ft with units := ft.units - moveUnitsOf mt ft.units }) c d
      = some tt := by rw [tileAt_setTile_ne _ hne2, ht]
  unfold GameEngine.makeMove
  rw [if_neg (by simp [hgo]), if_neg (by simp [hv]), hf]
  simp only [show (if mt == "half" then Int.fdiv ft.units 2 else ft.units - 1) = moveUnitsOf mt ft.units
      from rfl,
    if_neg (show ¬ moveUnitsOf mt ft.units < 1 by have := moveUnitsOf_pos mt hu; omega),
    if_neg (show ¬ ft.units - moveUnitsOf mt ft.units < 1 by have := moveUnitsOf_lt mt hu; omega),
    ht1]
  rw [if_neg (show ¬ (tt.owner == 0) = true by simp [hown0]),
    if_neg (show ¬ (tt.owner == s.currentPlayer) = true by simp [howncp]),
    if_neg (show ¬ ((tt.type == 3 || tt.type == 2) &&
      decide (moveUnitsOf mt ft.units - tt.units < 1)) = true by simp [hpl.1, hpl.2]),
    if_neg (show ¬ (0 ≤ moveUnitsOf mt ft.units - tt.units) by omega)]

/-! ## C3: combat on enemy non-Capital tiles -/

/-- C3 counterexample: on the canonical engine a Max move of 3 units onto an
adjacent plain enemy tile defending with 3 units has
`result = moveUnits - defenderUnits = 0 < 1`, yet the tile IS captured —
its owner flips to the mover (units 0) — whereas the claim requires
ownership to be unchanged whenever `result < 1`. -/
theorem combat_result_zero_captures :
    GameEngine.isValidMove demoState 0 0 1 0 = true ∧
    moveUnitsOf "max" 4 - 3 = 0 ∧
    tileAt demoState.map 1 0 = some (blankTile 2 3) ∧
    tileAt (GameEngine.makeMove demoState 0 0 1 0 "max").2.map 1 0 =
      some { type := 0, owner := 1, units := 0, captureCost := none } :=
  ⟨by decide, by decide, by decide, by decide⟩

/-- C3 (amended): combat moving onto an enemy tile that is not a Capital,
with `result = moveUnits - defenderUnits`: a Stronghold is captured exactly
when `result ≥ 1`, any other tile exactly when `result ≥ 0`; on capture
`owner := mover`, `units := result` and `playerTiles` is updated; on a
failed attack ownership is unchanged and the defender keeps
`max(0, defenderUnits - moveUnits)`. -/
theorem combat_non_capital (s : GameState) (a b c d : Nat) (mt : String)
    (hgo : s.gameOver = false) (hv : GameEngine.isValidMove s a b c d = true)
    {ft tt : Tile} (hf : tileAt s.map a b = some ft) (ht : tileAt s.map c d = some tt)
    (hown0 : tt.owner ≠ 0) (howncp : tt.owner ≠ s.currentPlayer)
    (hncap : tt.type ≠ 3) :
    (GameEngine.makeMove s a b c d mt).1 = true ∧
    (((tt.type = 2 ∧ 1 ≤ moveUnitsOf mt ft.units - tt.units) ∨
      (tt.type ≠ 2 ∧ 0 ≤ moveUnitsOf mt ft.units - tt.units)) →
      tileAt (GameEngine.makeMove s a b c d mt).2.map c d =
        some { tt with owner := s.currentPlayer, units := moveUnitsOf mt ft.units - tt.units } ∧
      (GameEngine.makeMove s a b c d mt).2.playerTiles =
        GameEngine.updateTileOwnership s.playerCount s.playerTiles c d tt.owner
          s.currentPlayer) ∧
    (((tt.type = 2 ∧ moveUnitsOf mt ft.units - tt.units < 1) ∨
      (tt.type ≠ 2 ∧ moveUnitsOf mt ft.units - tt.units < 0)) →
      tileAt (GameEngine.makeMove s a b c d mt).2.map c d =
        some { tt with units := max 0 (tt.units - moveUnitsOf mt ft.units) } ∧
      (GameEngine.makeMove s a b c d mt).2.playerTiles = s.playerTiles) := by
  have hne := isValidMove_ne s hv
  have hne2 : (c, d) ≠ (a, b) := fun hcc => hne hcc.symm
  have ht1 : tileAt (setTile s.map a b { ft with units := ft.units - moveUnitsOf mt ft.units }) c d
      = some tt := by rw [tileAt_setTile_ne _ hne2, ht]
  by_cases h2 : tt.type = 2
  · by_cases hr : 1 ≤ moveUnitsOf mt ft.units - tt.units
    · rw [makeMove_captureStronghold_eq s a b c d mt hgo hv hf ht hown0 howncp h2 hr]
      refine ⟨rfl, fun _ => ?_, fun hcon => ?_⟩
      · rw [engineCheckWin_map, engineCheckWin_playerTiles]
        exact ⟨tileAt_setTile_self ht1 _, rfl⟩
      · rcases hcon with ⟨_, hlt⟩ | ⟨hc, _⟩
        · omega
        · exact absurd h2 hc
    · rw [makeMove_specialFail_eq s a b c d mt hgo hv hf ht hown0 howncp (Or.inr h2) (by omega)]
      refine ⟨rfl, fun hcon => ?_, fun _ => ?_⟩
      · rcases hcon with ⟨_, hge⟩ | ⟨hc, _⟩
        · omega
        · exact absurd h2 hc
      · rw [engineCheckWin_map, engineCheckWin_playerTiles]
        refine ⟨?_, rfl⟩
        have hu : ({ tt with units := if tt.units - moveUnitsOf mt ft.units ≤ 0 then 0
            else tt.units - moveUnitsOf mt ft.units } : Tile) =
            { tt with units := max 0 (tt.units - moveUnitsOf mt ft.units) } := by
          have : (if tt.units - moveUnitsOf mt ft.units ≤ 0 then 0
              else tt.units - moveUnitsOf mt ft.units) =
              max 0 (tt.units - moveUnitsOf mt ft.units) := by
            split <;> omega
          rw [this]
        rw [← hu]
        exact tileAt_setTile_self ht1 _
  · by_cases hr : 0 ≤ moveUnitsOf mt ft.units - tt.units
    · rw [makeMove_capturePlain_eq s a b c d mt hgo hv hf ht hown0 howncp ⟨hncap, h2⟩ hr]
      refine ⟨rfl, fun _ => ?_, fun hcon => ?_⟩
      · rw [engineCheckWin_map, engineCheckWin_playerTiles]
        exact ⟨tileAt_setTile_self ht1 _, rfl⟩
      · rcases hcon with ⟨hc, _⟩ | ⟨_, hlt⟩
        · exact absurd hc h2
        · omega
    · rw [makeMove_plainFail_eq s a b c d mt hgo hv hf ht hown0 howncp ⟨hncap, h2⟩ (by omega)]
      refine ⟨rfl, fun hcon => ?_, fun _ => ?_⟩
      · rcases hcon with ⟨hc, _⟩ | ⟨_, hge⟩
        · exact absurd hc h2
        · omega
      · rw [engineCheckWin_map, engineCheckWin_playerTiles]
        refine ⟨?_, rfl⟩
        have hu : ({ tt with units := -(moveUnitsOf mt ft.units - tt.units) } : Tile) =
            { tt with units := max 0 (tt.units - moveUnitsOf mt ft.units) } := by
          have : -(moveUnitsOf mt ft.units - tt.units) =
              max 0 (tt.units - moveUnitsOf mt ft.units) := by omega
          rw [this]
        rw [← hu]
        exact tileAt_setTile_self ht1 _

theorem combat_non_capital_witness :
    GameEngine.isValidMove demoState 0 0 1 0 = true ∧
    ((GameEngine.makeMove demoState 0 0 1 0 "max").1 = true ∧
     ((((blankTile 2 3).type = 2 ∧
        1 ≤ moveUnitsOf "max" (blankTile 1 4).units - (blankTile 2 3).units) ∨
       ((blankTile 2 3).type ≠ 2 ∧
        0 ≤ moveUnitsOf "max" (blankTile 1 4).units - (blankTile 2 3).units)) →
       tileAt (GameEngine.makeMove demoState 0 0 1 0 "max").2.map 1 0 =
         some { blankTile 2 3 with
                owner := demoState.currentPlayer
                units := moveUnitsOf "max" (blankTile 1 4).units - (blankTile 2 3).units } ∧
       (GameEngine.makeMove demoState 0 0 1 0 "max").2.playerTiles =
         GameEngine.updateTileOwnership demoState.playerCount demoState.playerTiles 1 0
           (blankTile 2 3).owner demoState.currentPlayer) ∧
     ((((blankTile 2 3).type = 2 ∧
        moveUnitsOf "max" (blankTile 1 4).units - (blankTile 2 3).units < 1) ∨
       ((blankTile 2 3).type ≠ 2 ∧
        moveUnitsOf "max" (blankTile 1 4).units - (blankTile 2 3).units < 0)) →
       tileAt (GameEngine.makeMove demoState 0 0 1 0 "max").2.map 1 0 =
         some { blankTile 2 3 with
                units := max 0 ((blankTile 2 3).units - moveUnitsOf "max" (blankTile 1 4).units) } ∧
       (GameEngine.makeMove demoState 0 0 1 0 "max").2.playerTiles = demoState.playerTiles)) :=
  ⟨by decide,
   combat_non_capital demoState 0 0 1 0 "max" rfl (by decide) (by decide) (by decide)
     (by decide) (by decide) (by decide)⟩

/-! ## C5: neutral Stronghold unlock -/

/-- Scenario D of the spec: a neutral locked Stronghold (captureCost 20)
next to a 13-unit attacker tile of player 1. -/
def costMap : GameMap :=
  { width := 2, height := 2,
    tiles := [[blankTile 1 13, { type := 2, owner := 0, units := 0, captureCost := some 20 }],
              [blankTile 0 0, { type := 3, owner := 2, units := 5, captureCost := none }]],
    capitals := [⟨1, 1, 2⟩] }

/-- The engine state over `costMap`. -/
def costState : GameState := GameEngine.initState costMap 2

/-- C5: the canonical engine's `makeMove` has no captureCost handling at
all — a neutral Stronghold with `captureCost = 20` attacked by 12 units is
captured outright (owner := mover, garrison 12) with the captureCost left
at 20, where the claim (and the Search AI's own simulation, shown in the
last conjunct) require the 12 units to be consumed, the cost reduced to 8
and no capture. -/
theorem makeMove_ignores_captureCost :
    GameEngine.isValidMove costState 0 0 1 0 = true ∧
    tileAt costState.map 1 0 = some { type := 2, owner := 0, units := 0, captureCost := some 20 } ∧
    moveUnitsOf "max" 13 = 12 ∧
    (GameEngine.makeMove costState 0 0 1 0 "max").1 = true ∧
    tileAt (GameEngine.makeMove costState 0 0 1 0 "max").2.map 1 0 =
      some { type := 2, owner := 1, units := 12, captureCost := some 20 } ∧
    tileAt (MinimaxAI.applyMove costState ⟨0, 0, 1, 0, "max"⟩ 1).map 1 0 =
      some { type := 2, owner := 0, units := 0, captureCost := some 8 } :=
  ⟨by decide, by decide, by decide, by decide, by decide, by decide⟩

/-- `demoState` about to wrap: the last player is to move. -/
def demoWrapState : GameState := { demoState with currentPlayer := 2 }

theorem nextTurn_progression_witness :
    demoWrapState.gameOver = false ∧
    demoWrapState.currentPlayer = demoWrapState.playerCount ∧
    ((GameEngine.nextTurn demoWrapState).currentPlayer = 1 ∧
     (GameEngine.nextTurn demoWrapState).turn = demoWrapState.turn + 1 ∧
     (GameEngine.nextTurn demoWrapState).round =
       demoWrapState.round + (if demoWrapState.turn % 25 = 0 then 1 else 0) ∧
     (∀ x y t, tileAt demoWrapState.map x y = some t →
       tileAt (GameEngine.nextTurn demoWrapState).map x y = some { t with units := t.units +
         (if 0 < t.owner ∧ (t.type = 2 ∨ t.type = 3) then 1 else 0) +
         (if demoWrapState.turn % 25 = 0 ∧ 0 < t.owner ∧ t.type = 0 then 1 else 0) })) :=
  ⟨rfl, rfl,
   (nextTurn_progression demoWrapState rfl (by decide) (by decide) (by decide) (by decide)).2 rfl⟩

/-! ## The takeover fold: per-tile and per-index characterisation -/

theorem tileOwnedBy_setTile_ne {m : GameMap} {x y a b : Nat} (t : Tile) (p : Int)
    (h : (a, b) ≠ (x, y)) :
    tileOwnedBy (setTile m x y t) (a, b) p = tileOwnedBy m (a, b) p := by
  unfold tileOwnedBy
  rw [tileAt_setTile_ne _ h]

theorem takeoverStep_skip (n d k : Int) (m : GameMap) (pt : PT) {c : Nat × Nat}
    (h : tileOwnedBy m c d = false) :
    GameEngine.takeoverStep n d k (m, pt) c = (m, pt) := by
  unfold GameEngine.takeoverStep
  unfold tileOwnedBy at h
  cases htc : tileAt m c.1 c.2 with
  | none => rfl
  | some tile =>
    rw [htc] at h
    simp only [] at h
    simp [h]

theorem takeoverStep_transfer (n d k : Int) (m : GameMap) (pt : PT) {c : Nat × Nat}
    {tile : Tile} (htc : tileAt m c.1 c.2 = some tile) (h : tile.owner = d) :
    GameEngine.takeoverStep n d k (m, pt) c =
      (setTile m c.1 c.2 (GameEngine.transferTile k tile),
       GameEngine.updateTileOwnership n pt c.1 c.2 d k) := by
  unfold GameEngine.takeoverStep
  rw [htc]
  simp [h]

theorem takeover_fold_map (n d k : Int) (L : List (Nat × Nat)) :
    ∀ (m : GameMap) (pt : PT) (x y : Nat), L.Nodup →
      tileAt (L.foldl (GameEngine.takeoverStep n d k) (m, pt)).1 x y =
        (if (x, y) ∈ L ∧ tileOwnedBy m (x, y) d = true then
          (tileAt m x y).map (GameEngine.transferTile k)
        else tileAt m x y) := by
  induction L with
  | nil => intro m pt x y _; simp
  | cons c L ih =>
    intro m pt x y hnd
    obtain ⟨hc, hnd2⟩ := List.nodup_cons.1 hnd
    obtain ⟨cx, cy⟩ := c
    rw [List.foldl_cons]
    by_cases howned : tileOwnedBy m (cx, cy) d = true
    · have htile : ∃ tile, tileAt m cx cy = some tile ∧ tile.owner = d := by
        unfold tileOwnedBy at howned
        cases htc : tileAt m cx cy with
        | none => rw [show tileAt m ((cx, cy) : Nat × Nat).1 ((cx, cy) : Nat × Nat).2
            = tileAt m cx cy from rfl, htc] at howned; cases howned
        | some tile =>
          rw [show tileAt m ((cx, cy) : Nat × Nat).1 ((cx, cy) : Nat × Nat).2
            = tileAt m cx cy from rfl, htc] at howned
          exact ⟨tile, rfl, by simpa using howned⟩
      obtain ⟨tile, htc, hto⟩ := htile
      rw [takeoverStep_transfer n d k m pt htc hto,
        ih (setTile m cx cy (GameEngine.transferTile k tile)) _ x y hnd2]
      by_cases hxy : x = cx ∧ y = cy
      · obtain ⟨hx, hy⟩ := hxy
        subst hx; subst hy
        rw [if_neg (fun hcon => hc hcon.1)]
        rw [if_pos ⟨List.mem_cons_self _ _, howned⟩]
        rw [tileAt_setTile_self htc _, htc]
        rfl
      · have hne : ((x, y) : Nat × Nat) ≠ (cx, cy) := by
          intro hcon
          rw [Prod.ext_iff] at hcon
          exact hxy ⟨hcon.1, hcon.2⟩
        have hob : tileOwnedBy (setTile m cx cy (GameEngine.transferTile k tile)) (x, y) d =
            tileOwnedBy m (x, y) d := tileOwnedBy_setTile_ne _ _ hne
        have hta : tileAt (setTile m cx cy (GameEngine.transferTile k tile)) x y =
            tileAt m x y := tileAt_setTile_ne _ hne
        rw [hob, hta]
        by_cases hmem : (x, y) ∈ L ∧ tileOwnedBy m (x, y) d = true
        · rw [if_pos hmem, if_pos ⟨List.mem_cons_of_mem _ hmem.1, hmem.2⟩]
        · rw [if_neg hmem, if_neg (by
            rintro ⟨hmem2, hownd⟩
            rcases List.mem_cons.1 hmem2 with h | h
            · exact hne h
            · exact hmem ⟨h, hownd⟩)]
    · rw [takeoverStep_skip n d k m pt (by simpa using howned),
        ih m pt x y hnd2]
      by_cases hxy : ((x, y) : Nat × Nat) = (cx, cy)
      · rw [if_neg (fun hcon => howned (hxy ▸ hcon.2)),
          if_neg (fun hcon => howned (hxy ▸ hcon.2))]
      · by_cases hmem : (x, y) ∈ L ∧ tileOwnedBy m (x, y) d = true
        · rw [if_pos hmem, if_pos ⟨List.mem_cons_of_mem _ hmem.1, hmem.2⟩]
        · rw [if_neg hmem, if_neg (by
            rintro ⟨hmem2, hownd⟩
            rcases List.mem_cons.1 hmem2 with h | h
            · exact hxy h
            · exact hmem ⟨h, hownd⟩)]

theorem takeover_fold_pt_other (n d k : Int) (L : List (Nat × Nat)) :
    ∀ (m : GameMap) (pt : PT) (q : Int), q ≠ d → q ≠ k →
      (L.foldl (GameEngine.takeoverStep n d k) (m, pt)).2 q = pt q := by
  induction L with
  | nil => intro m pt q _ _; rfl
  | cons c L ih =>
    intro m pt q hqd hqk
    rw [List.foldl_cons]
    by_cases howned : tileOwnedBy m c d = true
    · have htile : ∃ tile, tileAt m c.1 c.2 = some tile ∧ tile.owner = d := by
        unfold tileOwnedBy at howned
        cases htc : tileAt m c.1 c.2 with
        | none => rw [htc] at howned; cases howned
        | some tile =>
          rw [htc] at howned
          exact ⟨tile, rfl, by simpa using howned⟩
      obtain ⟨tile, htc, hto⟩ := htile
      rw [takeoverStep_transfer n d k m pt htc hto, ih _ _ q hqd hqk,
        engineUpd_other n pt c.1 c.2 d k q hqd hqk]
    · rw [takeoverStep_skip n d k m pt (by simpa using howned), ih _ _ q hqd hqk]

theorem takeover_fold_pt_new (n d k : Int) (L : List (Nat × Nat)) :
    ∀ (m : GameMap) (pt : PT), L.Nodup → d ≠ k → 0 < k → k ≤ n →
      (L.foldl (GameEngine.takeoverStep n d k) (m, pt)).2 k =
        pt k ++ L.filter (fun c => tileOwnedBy m c d) := by
  induction L with
  | nil => intro m pt _ _ _ _; simp
  | cons c L ih =>
    intro m pt hnd hdk hk1 hk2
    obtain ⟨hc, hnd2⟩ := List.nodup_cons.1 hnd
    rw [List.foldl_cons]
    by_cases howned : tileOwnedBy m c d = true
    · have htile : ∃ tile, tileAt m c.1 c.2 = some tile ∧ tile.owner = d := by
        unfold tileOwnedBy at howned
        cases htc : tileAt m c.1 c.2 with
        | none => rw [htc] at howned; cases howned
        | some tile =>
          rw [htc] at howned
          exact ⟨tile, rfl, by simpa using howned⟩
      obtain ⟨tile, htc, hto⟩ := htile
      rw [takeoverStep_transfer n d k m pt htc hto,
        ih _ _ hnd2 hdk hk1 hk2,
        engineUpd_new n pt c.1 c.2 d k hk1 hk2 (fun hcc => hdk hcc.symm)]
      have hfc : L.filter (fun e => tileOwnedBy (setTile m c.1 c.2 (GameEngine.transferTile k tile)) e d)
          = L.filter (fun e => tileOwnedBy m e d) := by
        apply List.filter_congr
        intro e he
        have hne : e ≠ c := fun hcc => hc (hcc ▸ he)
        obtain ⟨ex, ey⟩ := e
        obtain ⟨c1, c2⟩ := c
        exact tileOwnedBy_setTile_ne _ _ hne
      rw [hfc]
      have hfilter : List.filter (fun e => tileOwnedBy m e d) (c :: L) =
          c :: List.filter (fun e => tileOwnedBy m e d) L := by
        simp [List.filter_cons, howned]
      rw [hfilter]
      simp
    · rw [takeoverStep_skip n d k m pt (by simpa using howned),
        ih _ _ hnd2 hdk hk1 hk2]
      have hfilter : List.filter (fun e => tileOwnedBy m e d) (c :: L) =
          List.filter (fun e => tileOwnedBy m e d) L := by
        simp [List.filter_cons, howned]
      rw [hfilter]

theorem takeover_fold_pt_old_nodup (n d k : Int) (L : List (Nat × Nat)) :
    ∀ (m : GameMap) (pt : PT), (pt d).Nodup → d ≠ k → 0 < d → d ≤ n →
      ((L.foldl (GameEngine.takeoverStep n d k) (m, pt)).2 d).Nodup := by
  induction L with
  | nil => intro m pt h _ _ _; exact h
  | cons c L ih =>
    intro m pt hnd hdk hd1 hd2
    rw [List.foldl_cons]
    by_cases howned : tileOwnedBy m c d = true
    · have htile : ∃ tile, tileAt m c.1 c.2 = some tile ∧ tile.owner = d := by
        unfold tileOwnedBy at howned
        cases htc : tileAt m c.1 c.2 with
        | none => rw [htc] at howned; cases howned
        | some tile =>
          rw [htc] at howned
          exact ⟨tile, rfl, by simpa using howned⟩
      obtain ⟨tile, htc, hto⟩ := htile
      rw [takeoverStep_transfer n d k m pt htc hto]
      apply ih
      · rw [engineUpd_old n pt c.1 c.2 d k hd1 hd2 hdk]
        exact hnd.erase _
      · exact hdk
      · exact hd1
      · exact hd2
    · rw [takeoverStep_skip n d k m pt (by simpa using howned)]
      exact ih m pt hnd hdk hd1 hd2

theorem takeover_fold_pt_old_mem (n d k : Int) (L : List (Nat × Nat)) :
    ∀ (m : GameMap) (pt : PT), L.Nodup → (pt d).Nodup → d ≠ k → 0 < d → d ≤ n →
      ∀ e, (e ∈ (L.foldl (GameEngine.takeoverStep n d k) (m, pt)).2 d ↔
        e ∈ pt d ∧ ¬ (e ∈ L ∧ tileOwnedBy m e d = true)) := by
  induction L with
  | nil => intro m pt _ _ _ _ _ e; simp
  | cons c L ih =>
    intro m pt hnd hptnd hdk hd1 hd2 e
    obtain ⟨hc, hnd2⟩ := List.nodup_cons.1 hnd
    rw [List.foldl_cons]
    by_cases howned : tileOwnedBy m c d = true
    · have htile : ∃ tile, tileAt m c.1 c.2 = some tile ∧ tile.owner = d := by
        unfold tileOwnedBy at howned
        cases htc : tileAt m c.1 c.2 with
        | none => rw [htc] at howned; cases howned
        | some tile =>
          rw [htc] at howned
          exact ⟨tile, rfl, by simpa using howned⟩
      obtain ⟨tile, htc, hto⟩ := htile
      rw [takeoverStep_transfer n d k m pt htc hto]
      have hupd : GameEngine.updateTileOwnership n pt c.1 c.2 d k d = (pt d).erase c := by
        rw [engineUpd_old n pt c.1 c.2 d k hd1 hd2 hdk]
      have hptnd2 : (GameEngine.updateTileOwnership n pt c.1 c.2 d k d).Nodup := by
        rw [hupd]; exact hptnd.erase _
      rw [ih _ _ hnd2 hptnd2 hdk hd1 hd2 e, hupd]
      by_cases hec : e = c
      · subst hec
        apply iff_of_false
        · rintro ⟨hmem, _⟩
          rw [List.Nodup.mem_erase_iff hptnd] at hmem
          exact hmem.1 rfl
        · rintro ⟨_, hneg⟩
          exact hneg ⟨List.mem_cons_self _ _, howned⟩
      · have hmeq : e ∈ (pt d).erase c ↔ e ∈ pt d := by
          rw [List.Nodup.mem_erase_iff hptnd]
          exact and_iff_right hec
        have hob : tileOwnedBy (setTile m c.1 c.2 (GameEngine.transferTile k tile)) e d =
            tileOwnedBy m e d := by
          obtain ⟨ex, ey⟩ := e
          obtain ⟨c1, c2⟩ := c
          exact tileOwnedBy_setTile_ne _ _ hec
        rw [hmeq, hob]
        constructor
        · rintro ⟨hmem, hneg⟩
          refine ⟨hmem, ?_⟩
          rintro ⟨hmem2, hownd⟩
          rcases List.mem_cons.1 hmem2 with h | h
          · exact hec h
          · exact hneg ⟨h, hownd⟩
        · rintro ⟨hmem, hneg⟩
          refine ⟨hmem, ?_⟩
          rintro ⟨hmem2, hownd⟩
          exact hneg ⟨List.mem_cons_of_mem _ hmem2, hownd⟩
    · rw [takeoverStep_skip n d k m pt (by simpa using howned),
        ih _ _ hnd2 hptnd hdk hd1 hd2 e]
      by_cases hec : e = c
      · subst hec
        constructor
        · rintro ⟨hmem, _⟩
          refine ⟨hmem, ?_⟩
          rintro ⟨_, hownd⟩
          exact absurd hownd (by simpa using howned)
        · rintro ⟨hmem, _⟩
          refine ⟨hmem, ?_⟩
          rintro ⟨hmem2, hownd⟩
          exact hc hmem2
      · constructor
        · rintro ⟨hmem, hneg⟩
          refine ⟨hmem, ?_⟩
          rintro ⟨hmem2, hownd⟩
          rcases List.mem_cons.1 hmem2 with h | h
          · exact hec h
          · exact hneg ⟨h, hownd⟩
        · rintro ⟨hmem, hneg⟩
          refine ⟨hmem, ?_⟩
          rintro ⟨hmem2, hownd⟩
          exact hneg ⟨List.mem_cons_of_mem _ hmem2, hownd⟩

/-! ## C4: the Capital-capture cascade -/

theorem transferTile_eq (k : Int) (t : Tile) :
    GameEngine.transferTile k t =
      { t with owner := k, units := Int.fdiv t.units 2 + 1,
               type := if t.type = 3 then 2 else t.type } := by
  unfold GameEngine.transferTile
  by_cases h : t.type = 3 <;> simp [h]

/-- A capital-capture scene: player 1 attacks player 2's Capital while
player 2 still owns a 4-unit and a 7-unit plain tile. -/
def cascadeMap : GameMap :=
  { width := 2, height := 2,
    tiles := [[blankTile 1 10, { type := 3, owner := 2, units := 2, captureCost := none }],
              [blankTile 2 4, blankTile 2 7]],
    capitals := [⟨1, 0, 2⟩] }

/-- The engine state over `cascadeMap`. -/
def cascadeState : GameState := GameEngine.initState cascadeMap 2

/-- C4 counterexample: capturing the enemy Capital transfers the defeated
player's 4-unit tile with `floor(4/2) + 1 = 3` units, not
`ceil(4/2) = 2` as the claim states. -/
theorem cascade_units_not_ceil :
    GameEngine.isValidMove cascadeState 0 0 1 0 = true ∧
    tileAt cascadeState.map 0 1 = some (blankTile 2 4) ∧
    tileAt (GameEngine.makeMove cascadeState 0 0 1 0 "max").2.map 0 1 =
      some (blankTile 1 3) ∧
    ¬ tileAt (GameEngine.makeMove cascadeState 0 0 1 0 "max").2.map 0 1 =
      some (blankTile 1 2) :=
  ⟨by decide, by decide, by decide, by decide⟩

/-- C4 (amended): when a valid move captures an enemy Capital
(`result ≥ 1`), the captured tile is demoted to a Stronghold under the
conqueror with `units = result`, and every other tile owned by the defeated
player is transferred to the conqueror with `units := floor(u/2) + 1`
(which is `ceil(u/2)` only for odd `u`; even `u` gains the extra +1), a
Capital among them being demoted to a Stronghold. -/
theorem capital_capture_cascade (s : GameState) (a b c d : Nat) (mt : String)
    (hok : StateOk s)
    (hgo : s.gameOver = false) (hv : GameEngine.isValidMove s a b c d = true)
    {ft tt : Tile} (hf : tileAt s.map a b = some ft) (ht : tileAt s.map c d = some tt)
    (hown0 : tt.owner ≠ 0) (howncp : tt.owner ≠ s.currentPlayer)
    (hcap : tt.type = 3)
    (hres : 1 ≤ moveUnitsOf mt ft.units - tt.units) :
    (GameEngine.makeMove s a b c d mt).1 = true ∧
    tileAt (GameEngine.makeMove s a b c d mt).2.map c d =
      some { tt with owner := s.currentPlayer, units := moveUnitsOf mt ft.units - tt.units,
                     type := 2 } ∧
    (∀ x y t, tileAt s.map x y = some t → t.owner = tt.owner → (x, y) ≠ (c, d) →
      tileAt (GameEngine.makeMove s a b c d mt).2.map x y =
        some { t with owner := s.currentPlayer, units := Int.fdiv t.units 2 + 1,
                      type := if t.type = 3 then 2 else t.type }) := by
  obtain ⟨hshape, howners, hunits, hn1, hcp1, hcpn, hidx⟩ := hok
  obtain ⟨ft2, tt2, hf2, ht2, ho, hu, hm, hd⟩ := isValidMove_spec hv
  rw [hf] at hf2
  cases hf2
  rw [ht] at ht2
  cases ht2
  have hne := isValidMove_ne s hv
  have hne2 : (c, d) ≠ (a, b) := fun hcc => hne hcc.symm
  have hdb : 0 ≤ tt.owner ∧ tt.owner ≤ s.playerCount := by
    obtain ⟨row, hrow, htm⟩ := tileAt_mem ht
    exact howners row hrow tt htm
  have hdrange : tt.owner ∈ intRange 1 s.playerCount := by
    rw [intRange_mem]
    omega
  obtain ⟨hnodup, hA, hB⟩ := hidx tt.owner hdrange
  rw [makeMove_captureCapital_eq s a b c d mt hgo hv hf ht hown0 howncp hcap hres]
  simp only [engineCheckWin_map]
  set map1 := setTile s.map a b { ft with units := ft.units - moveUnitsOf mt ft.units } with hmap1
  set capTile : Tile :=
    { tt with owner := s.currentPlayer, units := moveUnitsOf mt ft.units - tt.units,
              type := 2 } with hcapTile
  set map2 := setTile map1 c d capTile with hmap2
  have ht1 : tileAt map1 c d = some tt := by
    rw [hmap1, tileAt_setTile_ne _ hne2, ht]
  have htm2 : tileAt map2 c d = some capTile := tileAt_setTile_self ht1 _
  have hmapspec := takeover_fold_map s.playerCount tt.owner s.currentPlayer
    (s.playerTiles tt.owner) map2 s.playerTiles
  refine ⟨trivial, ?_, ?_⟩
  · -- the captured tile: not transferred again (its owner is already the conqueror)
    rw [show (GameEngine.takeoverPlayerTiles s.playerCount map2 s.playerTiles tt.owner
        s.currentPlayer).1 = (List.foldl (GameEngine.takeoverStep s.playerCount tt.owner
        s.currentPlayer) (map2, s.playerTiles) (s.playerTiles tt.owner)).1 from rfl]
    rw [hmapspec c d hnodup]
    rw [if_neg (by
      rintro ⟨_, hcon⟩
      unfold tileOwnedBy at hcon
      rw [htm2] at hcon
      have hower : capTile.owner = tt.owner := by simpa using hcon
      rw [hcapTile] at hower
      simp only [] at hower
      exact howncp hower.symm)]
    exact htm2
  · intro x y t htxy htown hnecd
    have hnab : ((x, y) : Nat × Nat) ≠ (a, b) := by
      intro hcon
      rw [Prod.ext_iff] at hcon
      obtain ⟨h1, h2⟩ := hcon
      subst h1; subst h2
      rw [htxy] at hf
      cases hf
      rw [htown] at ho
      exact howncp ho
    have htxy1 : tileAt map1 x y = some t := by
      rw [hmap1, tileAt_setTile_ne _ hnab, htxy]
    have htxy2 : tileAt map2 x y = some t := by
      rw [hmap2, tileAt_setTile_ne _ hnecd, htxy1]
    have hmem : ((x, y) : Nat × Nat) ∈ s.playerTiles tt.owner := by
      apply hB
      · rw [allCoords_mem]
        unfold tileAt at htxy
        cases hy : s.map.tiles[y]? with
        | none => rw [hy] at htxy; cases htxy
        | some row =>
          rw [hy] at htxy
          simp only [Option.some_bind] at htxy
          have hylt : y < s.map.tiles.length := (List.getElem?_eq_some_iff.1 hy).1
          have hxlt : x < row.length := (List.getElem?_eq_some_iff.1 htxy).1
          constructor
          · rw [← hshape.2 row (List.getElem?_mem hy)]
            exact hxlt
          · rw [← hshape.1]
            exact hylt
      · unfold tileOwnedBy
        rw [htxy]
        simp [htown]
    rw [show (GameEngine.takeoverPlayerTiles s.playerCount map2 s.playerTiles tt.owner
        s.currentPlayer).1 = (List.foldl (GameEngine.takeoverStep s.playerCount tt.owner
        s.currentPlayer) (map2, s.playerTiles) (s.playerTiles tt.owner)).1 from rfl]
    rw [hmapspec x y hnodup]
    rw [if_pos ⟨hmem, by
      unfold tileOwnedBy
      rw [htxy2]
      simp [htown]⟩]
    simp [htxy2, transferTile_eq]

/-- The defeated player's Capital tile in `cascadeMap`. -/
def cascadeCapTile : Tile := { type := 3, owner := 2, units := 2, captureCost := none }

theorem capital_capture_cascade_witness :
    StateOk cascadeState ∧
    ((GameEngine.makeMove cascadeState 0 0 1 0 "max").1 = true ∧
     tileAt (GameEngine.makeMove cascadeState 0 0 1 0 "max").2.map 1 0 =
       some { cascadeCapTile with
              owner := cascadeState.currentPlayer
              units := moveUnitsOf "max" (blankTile 1 10).units - cascadeCapTile.units
              type := 2 } ∧
     (∀ x y t, tileAt cascadeState.map x y = some t →
        t.owner = cascadeCapTile.owner →
        (x, y) ≠ (1, 0) →
        tileAt (GameEngine.makeMove cascadeState 0 0 1 0 "max").2.map x y =
          some { t with owner := cascadeState.currentPlayer, units := Int.fdiv t.units 2 + 1,
                        type := if t.type = 3 then 2 else t.type })) :=
  ⟨by decide,
   capital_capture_cascade cascadeState 0 0 1 0 "max" (by decide) rfl (by decide)
     rfl rfl (by decide) (by decide) (by decide) (by decide)⟩

/-! ## Preservation of the state invariant -/

theorem ownersOk_of_tileAt {m : GameMap} {n : Int} {x y : Nat} {t : Tile}
    (h : OwnersOk m n) (ht : tileAt m x y = some t) : 0 ≤ t.owner ∧ t.owner ≤ n := by
  obtain ⟨row, hrow, htm⟩ := tileAt_mem ht
  exact h row hrow t htm

theorem unitsOk_of_tileAt {m : GameMap} {x y : Nat} {t : Tile}
    (h : UnitsOk m) (ht : tileAt m x y = some t) : 0 ≤ t.units := by
  obtain ⟨row, hrow, htm⟩ := tileAt_mem ht
  exact h row hrow t htm

theorem ownersOk_setTile {m : GameMap} {n : Int} (h : OwnersOk m n) {t : Tile}
    (h1 : 0 ≤ t.owner) (h2 : t.owner ≤ n) (x y : Nat) :
    OwnersOk (setTile m x y t) n := by
  intro row hrow t2 ht2
  by_cases hy : y < m.tiles.length
  · rcases List.mem_or_eq_of_mem_set hrow with hm | hm
    · exact h row hm t2 ht2
    · subst hm
      rcases List.mem_or_eq_of_mem_set ht2 with hm2 | hm2
      · refine h (m.tiles.getD y []) ?_ t2 hm2
        have : m.tiles.getD y [] = m.tiles[y] := by
          simp [List.getD_eq_getElem?_getD, List.getElem?_eq_getElem hy]
        rw [this]
        exact List.getElem_mem hy
      · subst hm2
        exact ⟨h1, h2⟩
  · rw [show (setTile m x y t).tiles = m.tiles from
      List.set_eq_of_length_le (by omega)] at hrow
    exact h row hrow t2 ht2

theorem unitsOk_setTile {m : GameMap} (h : UnitsOk m) {t : Tile}
    (h1 : 0 ≤ t.units) (x y : Nat) :
    UnitsOk (setTile m x y t) := by
  intro row hrow t2 ht2
  by_cases hy : y < m.tiles.length
  · rcases List.mem_or_eq_of_mem_set hrow with hm | hm
    · exact h row hm t2 ht2
    · subst hm
      rcases List.mem_or_eq_of_mem_set ht2 with hm2 | hm2
      · refine h (m.tiles.getD y []) ?_ t2 hm2
        have : m.tiles.getD y [] = m.tiles[y] := by
          simp [List.getD_eq_getElem?_getD, List.getElem?_eq_getElem hy]
        rw [this]
        exact List.getElem_mem hy
      · subst hm2
        exact h1
  · rw [show (setTile m x y t).tiles = m.tiles from
      List.set_eq_of_length_le (by omega)] at hrow
    exact h row hrow t2 ht2

theorem tileOwnedBy_setTile_same_owner {m : GameMap} {x y : Nat} {told tnew : Tile}
    (ht : tileAt m x y = some told) (howner : tnew.owner = told.owner) (c : Nat × Nat)
    (p : Int) :
    tileOwnedBy (setTile m x y tnew) c p = tileOwnedBy m c p := by
  obtain ⟨cx, cy⟩ := c
  by_cases hc : ((cx, cy) : Nat × Nat) = (x, y)
  · unfold tileOwnedBy
    rw [Prod.ext_iff] at hc
    obtain ⟨h1, h2⟩ := hc
    subst h1; subst h2
    rw [tileAt_setTile_self ht tnew, ht]
    simp only [howner]
  · exact tileOwnedBy_setTile_ne _ _ hc

/-- The states the engine can reach from a valid generated map through its
two public operations. -/
inductive Reachable : GameState → Prop
  | init (m : GameMap) (n : Int) : MapOk m n → Reachable (GameEngine.initState m n)
  | move (s : GameState) (a b c d : Nat) (mt : String) : Reachable s →
      Reachable (GameEngine.makeMove s a b c d mt).2
  | next (s : GameState) : Reachable s → Reachable (GameEngine.nextTurn s)

theorem initState_ok {m : GameMap} {n : Int} (h : MapOk m n) :
    StateOk (GameEngine.initState m n) := by
  obtain ⟨hs, ho, hu, hn⟩ := h
  refine ⟨hs, ho, hu, hn, le_refl 1, hn, ?_⟩
  intro p hp
  rw [intRange_mem] at hp
  have hpt : (GameEngine.initState m n).playerTiles p =
      (allCoords m).filter (fun c => tileOwnedBy m c p) := by
    show GameEngine.initPlayerTiles m n p = _
    unfold GameEngine.initPlayerTiles
    rw [if_pos ⟨hp.1, hp.2⟩]
  rw [hpt]
  refine ⟨(allCoords_nodup m).filter _, ?_, ?_⟩
  · intro c hc
    exact (List.mem_filter.1 hc).2
  · intro c hc hown
    exact List.mem_filter.2 ⟨hc, hown⟩

theorem stateOk_checkWin {s : GameState} (h : StateOk s) :
    StateOk (GameEngine.checkWinCondition s) := by
  unfold GameEngine.checkWinCondition
  cases GameEngine.checkWinLoop s.map s.map.capitals with
  | none => exact h
  | some w =>
    obtain ⟨h1, h2, h3, h4, h5, h6, h7⟩ := h
    exact ⟨h1, h2, h3, h4, h5, h6, h7⟩

theorem tileOwnedBy_mapTiles_owner_preserving {f : Tile → Tile}
    (hf : ∀ t, (f t).owner = t.owner) (m : GameMap) (c : Nat × Nat) (p : Int) :
    tileOwnedBy (mapTiles f m) c p = tileOwnedBy m c p := by
  unfold tileOwnedBy
  rw [tileAt_mapTiles]
  cases tileAt m c.1 c.2 with
  | none => rfl
  | some t => simp [hf t]

theorem nextTurn_stateOk {s : GameState} (h : StateOk s) :
    StateOk (GameEngine.nextTurn s) := by
  obtain ⟨h1, h2, h3, h4, h5, h6, h7⟩ := h
  unfold GameEngine.nextTurn
  by_cases hgo : s.gameOver = true
  · simp only [hgo, if_true]
    exact ⟨h1, h2, h3, h4, h5, h6, h7⟩
  · rw [if_neg (by simp [hgo])]
    by_cases hwrap : s.currentPlayer + 1 > s.playerCount
    · rw [if_pos hwrap]
      set mround := if (s.turn + 1 - 1) % 25 = 0 then GameEngine.growUnitsPerRound s.map
        else s.map with hmround
      have hro : ∀ t : Tile, ((fun t : Tile => if t.owner ≠ 0 ∧ t.type = 0 then
          { t with units := t.units + 1 } else t) t).owner = t.owner := by
        intro t
        by_cases hcnd : t.owner ≠ 0 ∧ t.type = 0 <;> simp [hcnd]
      have hto : ∀ t : Tile, ((fun t : Tile => if t.owner ≠ 0 ∧ (t.type = 2 ∨ t.type = 3) then
          { t with units := t.units + 1 } else t) t).owner = t.owner := by
        intro t
        by_cases hcnd : t.owner ≠ 0 ∧ (t.type = 2 ∨ t.type = 3) <;> simp [hcnd]
      have hrshape : ShapeOk mround := by
        rw [hmround]; split
        · exact mapTiles_shape h1 _
        · exact h1
      have hrowners : OwnersOk mround s.playerCount := by
        rw [hmround]; split
        · intro row hrow t ht
          unfold GameEngine.growUnitsPerRound mapTiles at hrow
          simp only [List.mem_map] at hrow
          obtain ⟨r0, hr0, hre⟩ := hrow
          subst hre
          simp only [List.mem_map] at ht
          obtain ⟨t0, ht0, hte⟩ := ht
          subst hte
          have := h2 r0 hr0 t0 ht0
          split <;> simpa using this
        · exact h2
      have hrunits : UnitsOk mround := by
        rw [hmround]; split
        · intro row hrow t ht
          unfold GameEngine.growUnitsPerRound mapTiles at hrow
          simp only [List.mem_map] at hrow
          obtain ⟨r0, hr0, hre⟩ := hrow
          subst hre
          simp only [List.mem_map] at ht
          obtain ⟨t0, ht0, hte⟩ := ht
          subst hte
          have := h3 r0 hr0 t0 ht0
          split <;> simp <;> omega
        · exact h3
      have hrown : ∀ c p, tileOwnedBy mround c p = tileOwnedBy s.map c p := by
        intro c p
        rw [hmround]; split
        · exact tileOwnedBy_mapTiles_owner_preserving hro s.map c p
        · rfl
      have hrac : allCoords mround = allCoords s.map := by
        rw [hmround]; split <;> rfl
      refine ⟨mapTiles_shape hrshape _, ?_, ?_, h4, le_refl 1, h4, ?_⟩
      · intro row hrow t ht
        unfold GameEngine.growUnitsPerTurn mapTiles at hrow
        simp only [List.mem_map] at hrow
        obtain ⟨r0, hr0, hre⟩ := hrow
        subst hre
        simp only [List.mem_map] at ht
        obtain ⟨t0, ht0, hte⟩ := ht
        subst hte
        have := hrowners r0 hr0 t0 ht0
        split <;> simpa using this
      · intro row hrow t ht
        unfold GameEngine.growUnitsPerTurn mapTiles at hrow
        simp only [List.mem_map] at hrow
        obtain ⟨r0, hr0, hre⟩ := hrow
        subst hre
        simp only [List.mem_map] at ht
        obtain ⟨t0, ht0, hte⟩ := ht
        subst hte
        have := hrunits r0 hr0 t0 ht0
        split <;> simp <;> omega
      · intro p hp
        obtain ⟨ha, hb, hc⟩ := h7 p hp
        refine ⟨ha, ?_, ?_⟩
        · intro c hcm
          unfold GameEngine.growUnitsPerTurn
          rw [tileOwnedBy_mapTiles_owner_preserving hto, hrown]
          exact hb c hcm
        · intro c hcm hown
          unfold GameEngine.growUnitsPerTurn at hown hcm
          rw [tileOwnedBy_mapTiles_owner_preserving hto, hrown] at hown
          rw [show allCoords (mapTiles (fun t => if t.owner ≠ 0 ∧ (t.type = 2 ∨ t.type = 3)
            then { t with units := t.units + 1 } else t) mround) = allCoords mround
            from rfl, hrac] at hcm
          exact hc c hcm hown
    · rw [if_neg hwrap]
      refine ⟨h1, h2, h3, h4, by show 1 ≤ s.currentPlayer + 1; omega,
        by show s.currentPlayer + 1 ≤ s.playerCount; omega, h7⟩

theorem makeMove_gameOver_eq {s : GameState} (h : s.gameOver = true)
    (a b c d : Nat) (mt : String) :
    GameEngine.makeMove s a b c d mt = (false, s) := by
  unfold GameEngine.makeMove
  simp [h]

theorem indexOk_units_only {s : GameState} (h7 : IndexOk s)
    {a b c d : Nat} {ft tt ftn ttn : Tile}
    (hf : tileAt s.map a b = some ft) (hfo : ftn.owner = ft.owner)
    (ht1 : tileAt (setTile s.map a b ftn) c d = some tt) (hto : ttn.owner = tt.owner) :
    IndexOk { s with map := setTile (setTile s.map a b ftn) c d ttn } := by
  intro p hp
  obtain ⟨ha, hb, hc⟩ := h7 p hp
  have he : ∀ (e : Nat × Nat) (q : Int),
      tileOwnedBy (setTile (setTile s.map a b ftn) c d ttn) e q = tileOwnedBy s.map e q := by
    intro e q
    rw [tileOwnedBy_setTile_same_owner ht1 hto, tileOwnedBy_setTile_same_owner hf hfo]
  refine ⟨ha, ?_, ?_⟩
  · intro e hem
    rw [he]
    exact hb e hem
  · intro e hem hown
    rw [he] at hown
    exact hc e hem hown

theorem indexOk_capture {s : GameState}
    (h7 : IndexOk s)
    {a b c d : Nat} {ft tt ftn ttn : Tile}
    (hf : tileAt s.map a b = some ft) (hfo : ftn.owner = ft.owner)
    (hne2 : ((c, d) : Nat × Nat) ≠ (a, b))
    (ht : tileAt s.map c d = some tt)
    (hto : ttn.owner = s.currentPlayer)
    (hcp1 : 1 ≤ s.currentPlayer) (hcpn : s.currentPlayer ≤ s.playerCount)
    (hone : tt.owner ≠ s.currentPlayer) :
    IndexOk { s with
      map := setTile (setTile s.map a b ftn) c d ttn
      playerTiles := GameEngine.updateTileOwnership s.playerCount s.playerTiles c d tt.owner
        s.currentPlayer } := by
  have ht1 : tileAt (setTile s.map a b ftn) c d = some tt := by
    rw [tileAt_setTile_ne _ hne2, ht]
  have hOB : ∀ (e : Nat × Nat) (q : Int), e ≠ (c, d) →
      tileOwnedBy (setTile (setTile s.map a b ftn) c d ttn) e q = tileOwnedBy s.map e q := by
    intro e q hecd
    obtain ⟨e1, e2⟩ := e
    rw [tileOwnedBy_setTile_ne _ _ hecd, tileOwnedBy_setTile_same_owner hf hfo]
  have hOBcd : ∀ q : Int,
      tileOwnedBy (setTile (setTile s.map a b ftn) c d ttn) (c, d) q =
        (s.currentPlayer == q) := by
    intro q
    unfold tileOwnedBy
    rw [tileAt_setTile_self ht1 ttn]
    simp only [hto]
  have hOBScd : ∀ q : Int, tileOwnedBy s.map (c, d) q = (tt.owner == q) := by
    intro q
    unfold tileOwnedBy
    rw [ht]
  intro p hp
  dsimp only at hp ⊢
  have hpr := (intRange_mem 1 s.playerCount p).1 hp
  obtain ⟨ha, hb, hc⟩ := h7 p hp
  by_cases hpw : p = s.currentPlayer
  · subst hpw
    rw [engineUpd_new s.playerCount s.playerTiles c d tt.owner s.currentPlayer hcp1 hcpn
      (fun hcc => hone hcc.symm)]
    have hcdnot : ((c, d) : Nat × Nat) ∉ s.playerTiles s.currentPlayer := by
      intro hmem
      have := hb _ hmem
      rw [hOBScd] at this
      exact hone (by simpa using this)
    refine ⟨?_, ?_, ?_⟩
    · rw [List.nodup_append]
      exact ⟨ha, List.nodup_singleton _, by simpa using hcdnot⟩
    · intro e hem
      rcases List.mem_append.1 hem with hm | hm
      · have hecd : e ≠ (c, d) := fun hcc => hcdnot (hcc ▸ hm)
        rw [hOB e s.currentPlayer hecd]
        exact hb e hm
      · rw [List.mem_singleton.1 hm, hOBcd]
        simp
    · intro e hem hown
      by_cases hecd : e = (c, d)
      · subst hecd
        exact List.mem_append.2 (Or.inr (List.mem_singleton.2 rfl))
      · rw [hOB e s.currentPlayer hecd] at hown
        exact List.mem_append.2 (Or.inl (hc e hem hown))
  · by_cases hpo : p = tt.owner
    · subst hpo
      rw [engineUpd_old s.playerCount s.playerTiles c d tt.owner s.currentPlayer
        (by omega) (by omega) hpw]
      refine ⟨ha.erase _, ?_, ?_⟩
      · intro e hem
        rw [List.Nodup.mem_erase_iff ha] at hem
        rw [hOB e tt.owner hem.1]
        exact hb e hem.2
      · intro e hem hown
        have hecd : e ≠ (c, d) := by
          intro hcc
          subst hcc
          rw [hOBcd] at hown
          have heq : s.currentPlayer = tt.owner := by simpa using hown
          exact hpw heq.symm
        rw [hOB e tt.owner hecd] at hown
        rw [List.Nodup.mem_erase_iff ha]
        exact ⟨hecd, hc e hem hown⟩
    · rw [engineUpd_other s.playerCount s.playerTiles c d tt.owner s.currentPlayer p hpo hpw]
      refine ⟨ha, ?_, ?_⟩
      · intro e hem
        have hecd : e ≠ (c, d) := by
          intro hcc
          subst hcc
          have h9 := hb _ hem
          rw [hOBScd] at h9
          have heq : tt.owner = p := by simpa using h9
          exact hpo heq.symm
        rw [hOB e p hecd]
        exact hb e hem
      · intro e hem hown
        have hecd : e ≠ (c, d) := by
          intro hcc
          subst hcc
          rw [hOBcd] at hown
          have heq : s.currentPlayer = p := by simpa using hown
          exact hpw heq.symm
        rw [hOB e p hecd] at hown
        exact hc e hem hown

theorem transferTile_owner (k : Int) (t : Tile) : (GameEngine.transferTile k t).owner = k := by
  rw [transferTile_eq]

theorem transferTile_units (k : Int) (t : Tile) :
    (GameEngine.transferTile k t).units = Int.fdiv t.units 2 + 1 := by
  rw [transferTile_eq]

theorem takeover_fold_dims (n d k : Int) (L : List (Nat × Nat)) :
    ∀ (m : GameMap) (pt : PT),
      (L.foldl (GameEngine.takeoverStep n d k) (m, pt)).1.width = m.width ∧
      (L.foldl (GameEngine.takeoverStep n d k) (m, pt)).1.height = m.height := by
  induction L with
  | nil => intro m pt; exact ⟨rfl, rfl⟩
  | cons c L ih =>
    intro m pt
    rw [List.foldl_cons]
    by_cases howned : tileOwnedBy m c d = true
    · have htile : ∃ tile, tileAt m c.1 c.2 = some tile ∧ tile.owner = d := by
        unfold tileOwnedBy at howned
        cases htc : tileAt m c.1 c.2 with
        | none => rw [htc] at howned; cases howned
        | some tile =>
          rw [htc] at howned
          exact ⟨tile, rfl, by simpa using howned⟩
      obtain ⟨tile, htc, hto⟩ := htile
      rw [takeoverStep_transfer n d k m pt htc hto]
      exact ih _ _
    · rw [takeoverStep_skip n d k m pt (by simpa using howned)]
      exact ih _ _

theorem allCoords_eq_of_dims {m m' : GameMap} (hw : m'.width = m.width)
    (hh : m'.height = m.height) : allCoords m' = allCoords m := by
  unfold allCoords
  rw [hw, hh]

theorem takeover_fold_mapOk (n d k : Int) (L : List (Nat × Nat)) :
    ∀ (m : GameMap) (pt : PT), ShapeOk m → OwnersOk m n → UnitsOk m → 0 ≤ k → k ≤ n →
      ShapeOk (L.foldl (GameEngine.takeoverStep n d k) (m, pt)).1 ∧
      OwnersOk (L.foldl (GameEngine.takeoverStep n d k) (m, pt)).1 n ∧
      UnitsOk (L.foldl (GameEngine.takeoverStep n d k) (m, pt)).1 := by
  induction L with
  | nil => intro m pt h1 h2 h3 _ _; exact ⟨h1, h2, h3⟩
  | cons c L ih =>
    intro m pt h1 h2 h3 hk0 hkn
    rw [List.foldl_cons]
    by_cases howned : tileOwnedBy m c d = true
    · have htile : ∃ tile, tileAt m c.1 c.2 = some tile ∧ tile.owner = d := by
        unfold tileOwnedBy at howned
        cases htc : tileAt m c.1 c.2 with
        | none => rw [htc] at howned; cases howned
        | some tile =>
          rw [htc] at howned
          exact ⟨tile, rfl, by simpa using howned⟩
      obtain ⟨tile, htc, hto⟩ := htile
      rw [takeoverStep_transfer n d k m pt htc hto]
      refine ih _ _ (shapeOk_setTile h1 _ _ _) ?_ ?_ hk0 hkn
      · refine ownersOk_setTile h2 ?_ ?_ _ _
        · rw [transferTile_owner]; exact hk0
        · rw [transferTile_owner]; exact hkn
      · refine unitsOk_setTile h3 ?_ _ _
        rw [transferTile_units]
        have hu := unitsOk_of_tileAt h3 htc
        have : 0 ≤ Int.fdiv tile.units 2 := by
          rw [Int.fdiv_eq_ediv _ (by omega)]
          omega
        omega
    · rw [takeoverStep_skip n d k m pt (by simpa using howned)]
      exact ih _ _ h1 h2 h3 hk0 hkn

theorem mem_allCoords_of_tileAt {m : GameMap} (hs : ShapeOk m) {x y : Nat} {t : Tile}
    (ht : tileAt m x y = some t) : ((x, y) : Nat × Nat) ∈ allCoords m := by
  rw [allCoords_mem]
  unfold tileAt at ht
  cases hy : m.tiles[y]? with
  | none => rw [hy] at ht; cases ht
  | some row =>
    rw [hy] at ht
    simp only [Option.some_bind] at ht
    have hylt : y < m.tiles.length := (List.getElem?_eq_some_iff.1 hy).1
    have hxlt : x < row.length := (List.getElem?_eq_some_iff.1 ht).1
    constructor
    · rw [← hs.2 row (List.getElem?_mem hy)]
      exact hxlt
    · rw [← hs.1]
      exact hylt

theorem tileOwnedBy_unique {m : GameMap} (e : Nat × Nat) (q r : Int)
    (hq : tileOwnedBy m e q = true) (hr : tileOwnedBy m e r = true) : q = r := by
  unfold tileOwnedBy at hq hr
  cases he : tileAt m e.1 e.2 with
  | none => rw [he] at hq; cases hq
  | some t =>
    rw [he] at hq hr
    simp only [beq_iff_eq] at hq hr
    rw [← hq, ← hr]

theorem indexOk_capital {s : GameState}
    (h1 : ShapeOk s.map) (h2 : OwnersOk s.map s.playerCount) (h7 : IndexOk s)
    {a b c d : Nat} {ft tt ftn capTile : Tile}
    (hf : tileAt s.map a b = some ft) (hfo : ftn.owner = ft.owner)
    (hfowncp : ft.owner = s.currentPlayer)
    (hne2 : ((c, d) : Nat × Nat) ≠ (a, b))
    (ht : tileAt s.map c d = some tt)
    (hcapo : capTile.owner = s.currentPlayer)
    (hcp1 : 1 ≤ s.currentPlayer) (hcpn : s.currentPlayer ≤ s.playerCount)
    (hone0 : tt.owner ≠ 0) (honec : tt.owner ≠ s.currentPlayer) :
    IndexOk { s with
      map := (GameEngine.takeoverPlayerTiles s.playerCount
        (setTile (setTile s.map a b ftn) c d capTile) s.playerTiles tt.owner s.currentPlayer).1
      playerTiles := GameEngine.updateTileOwnership s.playerCount
        (GameEngine.takeoverPlayerTiles s.playerCount
          (setTile (setTile s.map a b ftn) c d capTile) s.playerTiles tt.owner
          s.currentPlayer).2 c d tt.owner s.currentPlayer } := by
  have hob := ownersOk_of_tileAt h2 ht
  have horange : tt.owner ∈ intRange 1 s.playerCount := by
    rw [intRange_mem]
    omega
  have hwrange : s.currentPlayer ∈ intRange 1 s.playerCount := by
    rw [intRange_mem]
    exact ⟨hcp1, hcpn⟩
  obtain ⟨hLnd, hLA, hLB⟩ := h7 tt.owner horange
  obtain ⟨hWnd, hWA, hWB⟩ := h7 s.currentPlayer hwrange
  set m2 := setTile (setTile s.map a b ftn) c d capTile with hm2
  have ht1 : tileAt (setTile s.map a b ftn) c d = some tt := by
    rw [tileAt_setTile_ne _ hne2, ht]
  have htm2 : tileAt m2 c d = some capTile := tileAt_setTile_self ht1 _
  have hOB : ∀ (e : Nat × Nat) (q : Int), e ≠ (c, d) →
      tileOwnedBy m2 e q = tileOwnedBy s.map e q := by
    intro e q hecd
    obtain ⟨e1, e2⟩ := e
    rw [hm2, tileOwnedBy_setTile_ne _ _ hecd, tileOwnedBy_setTile_same_owner hf hfo]
  have hOBcd : ∀ q : Int, tileOwnedBy m2 (c, d) q = (s.currentPlayer == q) := by
    intro q
    unfold tileOwnedBy
    rw [htm2]
    simp only [hcapo]
  have hOBScd : ∀ q : Int, tileOwnedBy s.map (c, d) q = (tt.owner == q) := by
    intro q
    unfold tileOwnedBy
    rw [ht]
  have hM2o : ∀ e : Nat × Nat, tileOwnedBy m2 e tt.owner = true ↔
      (e ≠ (c, d) ∧ tileOwnedBy s.map e tt.owner = true) := by
    intro e
    by_cases hecd : e = (c, d)
    · subst hecd
      rw [hOBcd]
      constructor
      · intro hcon
        exact absurd (by simpa using hcon) honec.symm
      · rintro ⟨hcon, _⟩
        exact absurd rfl hcon
    · rw [hOB e _ hecd]
      simp [hecd]
  have hcdmem : ((c, d) : Nat × Nat) ∈ s.playerTiles tt.owner := by
    apply hLB
    · exact mem_allCoords_of_tileAt h1 ht
    · rw [hOBScd]
      simp
  set L := s.playerTiles tt.owner with hL
  have honw : tt.owner ≠ s.currentPlayer := honec
  have hm3 := takeover_fold_map s.playerCount tt.owner s.currentPlayer L m2 s.playerTiles
  have hdims := takeover_fold_dims s.playerCount tt.owner s.currentPlayer L m2 s.playerTiles
  set m3 := (L.foldl (GameEngine.takeoverStep s.playerCount tt.owner s.currentPlayer)
    (m2, s.playerTiles)).1 with hm3def
  set pt3 := (L.foldl (GameEngine.takeoverStep s.playerCount tt.owner s.currentPlayer)
    (m2, s.playerTiles)).2 with hpt3def
  have hac3 : allCoords m3 = allCoords s.map := by
    refine allCoords_eq_of_dims ?_ ?_
    · rw [hm3def, hdims.1, hm2]
      rfl
    · rw [hm3def, hdims.2, hm2]
      rfl
  have hOB3 : ∀ (e : Nat × Nat) (q : Int),
      tileOwnedBy m3 e q =
        (if e ∈ L ∧ tileOwnedBy m2 e tt.owner = true then (s.currentPlayer == q)
         else tileOwnedBy m2 e q) := by
    intro e q
    obtain ⟨ex, ey⟩ := e
    by_cases hcond : ((ex, ey) : Nat × Nat) ∈ L ∧ tileOwnedBy m2 (ex, ey) tt.owner = true
    · rw [if_pos hcond]
      have hsome : ∃ tile, tileAt m2 ex ey = some tile := by
        have hcond2 := hcond.2
        unfold tileOwnedBy at hcond2
        cases htile : tileAt m2 ex ey with
        | none => rw [htile] at hcond2; cases hcond2
        | some tile => exact ⟨tile, rfl⟩
      obtain ⟨tile, htile⟩ := hsome
      have hm3at : tileAt m3 ex ey = some (GameEngine.transferTile s.currentPlayer tile) := by
        rw [hm3 ex ey hLnd, if_pos hcond, htile]
        rfl
      unfold tileOwnedBy
      rw [hm3at]
      simp [transferTile_owner]
    · rw [if_neg hcond]
      have hm3at : tileAt m3 ex ey = tileAt m2 ex ey := by
        rw [hm3 ex ey hLnd, if_neg hcond]
      unfold tileOwnedBy
      rw [hm3at]
  have hptw : pt3 s.currentPlayer =
      s.playerTiles s.currentPlayer ++ L.filter (fun e => tileOwnedBy m2 e tt.owner) := by
    rw [hpt3def]
    exact takeover_fold_pt_new s.playerCount tt.owner s.currentPlayer L m2 s.playerTiles
      hLnd honw hcp1 hcpn
  have hpto_mem := takeover_fold_pt_old_mem s.playerCount tt.owner s.currentPlayer L m2
    s.playerTiles hLnd (hL ▸ hLnd) honw (by omega) (by omega)
  have hpto_nodup := takeover_fold_pt_old_nodup s.playerCount tt.owner s.currentPlayer L m2
    s.playerTiles (hL ▸ hLnd) honw (by omega) (by omega)
  have hptq : ∀ q : Int, q ≠ tt.owner → q ≠ s.currentPlayer → pt3 q = s.playerTiles q := by
    intro q hq1 hq2
    rw [hpt3def]
    exact takeover_fold_pt_other s.playerCount tt.owner s.currentPlayer L m2 s.playerTiles q
      hq1 hq2
  intro p hp
  dsimp only at hp ⊢
  rw [show GameEngine.takeoverPlayerTiles s.playerCount m2 s.playerTiles tt.owner s.currentPlayer
      = L.foldl (GameEngine.takeoverStep s.playerCount tt.owner s.currentPlayer)
        (m2, s.playerTiles) from rfl, ← hm3def, ← hpt3def]
  have hpr := (intRange_mem 1 s.playerCount p).1 hp
  by_cases hpw : p = s.currentPlayer
  · subst hpw
    rw [engineUpd_new s.playerCount pt3 c d tt.owner s.currentPlayer hcp1 hcpn
      (fun hcc => honw hcc.symm), hptw]
    have hTmem : ∀ e : Nat × Nat,
        e ∈ L.filter (fun e => tileOwnedBy m2 e tt.owner) ↔ (e ∈ L ∧ e ≠ (c, d)) := by
      intro e
      rw [List.mem_filter]
      constructor
      · rintro ⟨hel, hot⟩
        exact ⟨hel, ((hM2o e).1 hot).1⟩
      · rintro ⟨hel, hecd⟩
        exact ⟨hel, (hM2o e).2 ⟨hecd, hLA e hel⟩⟩
    have hdisjwL : ∀ e : Nat × Nat, e ∈ s.playerTiles s.currentPlayer → e ∉ L := by
      intro e hew hel
      exact honw (tileOwnedBy_unique e tt.owner s.currentPlayer (hLA e hel) (hWA e hew))
    have hcdnotw : ((c, d) : Nat × Nat) ∉ s.playerTiles s.currentPlayer :=
      fun hmem => hdisjwL _ hmem hcdmem
    refine ⟨?_, ?_, ?_⟩
    · rw [List.nodup_append]
      refine ⟨?_, List.nodup_singleton _, ?_⟩
      · rw [List.nodup_append]
        refine ⟨hWnd, hLnd.filter _, ?_⟩
        intro e hew hefil
        exact hdisjwL e hew ((hTmem e).1 hefil).1
      · intro e hee
        rcases List.mem_append.1 hee with hm | hm
        · intro hcon
          rw [List.mem_singleton] at hcon
          subst hcon
          exact hcdnotw hm
        · intro hcon
          rw [List.mem_singleton] at hcon
          subst hcon
          exact ((hTmem _).1 hm).2 rfl
    · intro e hem
      rw [hOB3]
      rcases List.mem_append.1 hem with hm | hm
      · rcases List.mem_append.1 hm with hm2 | hm2
        · rw [if_neg (fun hcon => hdisjwL e hm2 hcon.1)]
          have hecd : e ≠ (c, d) := fun hcc => hcdnotw (hcc ▸ hm2)
          rw [hOB e s.currentPlayer hecd]
          exact hWA e hm2
        · rw [if_pos ⟨((hTmem e).1 hm2).1, (List.mem_filter.1 hm2).2⟩]
          simp
      · rw [List.mem_singleton.1 hm]
        rw [if_neg (fun hcon => ((hM2o _).1 hcon.2).1 rfl)]
        rw [hOBcd]
        simp
    · intro e hem hown
      rw [hOB3] at hown
      by_cases hcond : e ∈ L ∧ tileOwnedBy m2 e tt.owner = true
      · refine List.mem_append.2 (Or.inl (List.mem_append.2 (Or.inr ?_)))
        exact List.mem_filter.2 ⟨hcond.1, hcond.2⟩
      · rw [if_neg hcond] at hown
        by_cases hecd : e = (c, d)
        · subst hecd
          exact List.mem_append.2 (Or.inr (List.mem_singleton.2 rfl))
        · rw [hOB e s.currentPlayer hecd] at hown
          refine List.mem_append.2 (Or.inl (List.mem_append.2 (Or.inl ?_)))
          refine hWB e ?_ hown
          rw [hac3] at hem
          exact hem
  · by_cases hpo : p = tt.owner
    · subst hpo
      rw [engineUpd_old s.playerCount pt3 c d tt.owner s.currentPlayer (by omega) (by omega)
        hpw]
      have hpt3nd : (pt3 tt.owner).Nodup := hpto_nodup
      have hpt3mem : ∀ e : Nat × Nat, e ∈ pt3 tt.owner ↔ e = (c, d) := by
        intro e
        rw [hpt3def]
        rw [hpto_mem e]
        constructor
        · rintro ⟨hel, hneg⟩
          by_contra hecd
          exact hneg ⟨hL ▸ hel, (hM2o e).2 ⟨hecd, hLA e (hL ▸ hel)⟩⟩
        · rintro rfl
          refine ⟨hL ▸ hcdmem, ?_⟩
          rintro ⟨_, hcon⟩
          exact ((hM2o _).1 hcon).1 rfl
      refine ⟨hpt3nd.erase _, ?_, ?_⟩
      · intro e hem
        rw [List.Nodup.mem_erase_iff hpt3nd] at hem
        exact absurd ((hpt3mem e).1 hem.2) hem.1
      · intro e hem hown
        exfalso
        rw [hOB3] at hown
        by_cases hcond : e ∈ L ∧ tileOwnedBy m2 e tt.owner = true
        · rw [if_pos hcond] at hown
          have heq : s.currentPlayer = tt.owner := by simpa using hown
          exact hpw heq.symm
        · rw [if_neg hcond] at hown
          by_cases hecd : e = (c, d)
          · subst hecd
            rw [hOBcd] at hown
            have heq : s.currentPlayer = tt.owner := by simpa using hown
            exact hpw heq.symm
          · rw [hOB e tt.owner hecd] at hown
            have hel : e ∈ L := hLB e (by rw [hac3] at hem; exact hem) hown
            exact hcond ⟨hel, (hM2o e).2 ⟨hecd, hown⟩⟩
    · rw [engineUpd_other s.playerCount pt3 c d tt.owner s.currentPlayer p hpo hpw,
        hptq p hpo hpw]
      obtain ⟨hPnd, hPA, hPB⟩ := h7 p hp
      refine ⟨hPnd, ?_, ?_⟩
      · intro e hem
        rw [hOB3]
        have hecd : e ≠ (c, d) := by
          intro hcc
          subst hcc
          exact hpo (tileOwnedBy_unique _ p tt.owner (hPA _ hem) (by rw [hOBScd]; simp))
      
        rw [if_neg (by
          rintro ⟨hel, _⟩
          exact hpo (tileOwnedBy_unique e p tt.owner (hPA e hem) (hLA e hel)))]
        rw [hOB e p hecd]
        exact hPA e hem
      · intro e hem hown
        rw [hOB3] at hown
        by_cases hcond : e ∈ L ∧ tileOwnedBy m2 e tt.owner = true
        · rw [if_pos hcond] at hown
          have heq : s.currentPlayer = p := by simpa using hown
          exact absurd heq.symm hpw
        · rw [if_neg hcond] at hown
          by_cases hecd : e = (c, d)
          · subst hecd
            rw [hOBcd] at hown
            have heq : s.currentPlayer = p := by simpa using hown
            exact absurd heq.symm hpw
          · rw [hOB e p hecd] at hown
            refine hPB e ?_ hown
            rw [hac3] at hem
            exact hem

theorem makeMove_stateOk {s : GameState} (h : StateOk s) (a b c d : Nat) (mt : String) :
    StateOk (GameEngine.makeMove s a b c d mt).2 := by
  obtain ⟨h1, h2, h3, h4, h5, h6, h7⟩ := h
  by_cases hgo : s.gameOver = true
  · rw [makeMove_gameOver_eq hgo a b c d mt]
    exact ⟨h1, h2, h3, h4, h5, h6, h7⟩
  have hgo2 : s.gameOver = false := by
    cases hb : s.gameOver
    · rfl
    · exact absurd hb hgo
  cases hv : GameEngine.isValidMove s a b c d with
  | false =>
    rw [makeMove_of_not_valid mt hv]
    exact ⟨h1, h2, h3, h4, h5, h6, h7⟩
  | true =>
    obtain ⟨ft, tt, hf, ht, ho, hu, hm, hd⟩ := isValidMove_spec hv
    have hne := isValidMove_ne s hv
    have hne2 : ((c, d) : Nat × Nat) ≠ (a, b) := fun hcc => hne hcc.symm
    have hmu1 := moveUnitsOf_pos mt hu
    have hmulen := moveUnitsOf_lt mt hu
    have hftb := ownersOk_of_tileAt h2 hf
    have httb := ownersOk_of_tileAt h2 ht
    have hftu := unitsOk_of_tileAt h3 hf
    have httu := unitsOk_of_tileAt h3 ht
    have hshape1 : ShapeOk (setTile s.map a b
        { ft with units := ft.units - moveUnitsOf mt ft.units }) :=
      shapeOk_setTile h1 _ _ _
    have howners1 : OwnersOk (setTile s.map a b
        { ft with units := ft.units - moveUnitsOf mt ft.units }) s.playerCount :=
      ownersOk_setTile h2 (by exact hftb.1) (by exact hftb.2) _ _
    have hunits1 : UnitsOk (setTile s.map a b
        { ft with units := ft.units - moveUnitsOf mt ft.units }) :=
      unitsOk_setTile h3 (by show 0 ≤ ft.units - moveUnitsOf mt ft.units; omega) _ _
    have ht1 : tileAt (setTile s.map a b
        { ft with units := ft.units - moveUnitsOf mt ft.units }) c d = some tt := by
      rw [tileAt_setTile_ne _ hne2, ht]
    by_cases hto0 : tt.owner = 0
    · rw [makeMove_neutral_eq s a b c d mt hgo2 hv hf ht hto0]
      apply stateOk_checkWin
      refine ⟨shapeOk_setTile hshape1 _ _ _,
        ownersOk_setTile howners1 (by show (0:Int) ≤ s.currentPlayer; omega)
          (by show s.currentPlayer ≤ s.playerCount; omega) _ _,
        unitsOk_setTile hunits1 (by show 0 ≤ moveUnitsOf mt ft.units; omega) _ _,
        h4, h5, h6, ?_⟩
      rw [show (0 : Int) = tt.owner from hto0.symm]
      exact indexOk_capture h7 hf rfl hne2 ht rfl h5 h6 (by omega)
    · by_cases htocp : tt.owner = s.currentPlayer
      · rw [makeMove_merge_eq s a b c d mt hgo2 hv hf ht htocp (by omega)]
        apply stateOk_checkWin
        refine ⟨shapeOk_setTile hshape1 _ _ _,
          ownersOk_setTile howners1 (by exact httb.1) (by exact httb.2) _ _,
          unitsOk_setTile hunits1 (by show 0 ≤ tt.units + moveUnitsOf mt ft.units; omega) _ _,
          h4, h5, h6, ?_⟩
        exact indexOk_units_only h7 hf rfl ht1 rfl
      · by_cases hcap : tt.type = 3
        · by_cases hres : 1 ≤ moveUnitsOf mt ft.units - tt.units
          · rw [makeMove_captureCapital_eq s a b c d mt hgo2 hv hf ht hto0 htocp hcap hres]
            apply stateOk_checkWin
            have hshape2 : ShapeOk (setTile (setTile s.map a b
                { ft with units := ft.units - moveUnitsOf mt ft.units }) c d
                { tt with
                  owner := s.currentPlayer
                  units := moveUnitsOf mt ft.units - tt.units
                  type := 2 }) :=
              shapeOk_setTile hshape1 _ _ _
            have howners2 : OwnersOk (setTile (setTile s.map a b
                { ft with units := ft.units - moveUnitsOf mt ft.units }) c d
                { tt with
                  owner := s.currentPlayer
                  units := moveUnitsOf mt ft.units - tt.units
                  type := 2 }) s.playerCount :=
              ownersOk_setTile howners1 (by show (0:Int) ≤ s.currentPlayer; omega)
                (by show s.currentPlayer ≤ s.playerCount; omega) _ _
            have hunits2 : UnitsOk (setTile (setTile s.map a b
                { ft with units := ft.units - moveUnitsOf mt ft.units }) c d
                { tt with
                  owner := s.currentPlayer
                  units := moveUnitsOf mt ft.units - tt.units
                  type := 2 }) :=
              unitsOk_setTile hunits1
                (by show 0 ≤ moveUnitsOf mt ft.units - tt.units; omega) _ _
            have hfold := takeover_fold_mapOk s.playerCount tt.owner s.currentPlayer
              (s.playerTiles tt.owner) _ s.playerTiles hshape2 howners2 hunits2
              (by omega) (by omega)
            refine ⟨hfold.1, hfold.2.1, hfold.2.2, h4, h5, h6, ?_⟩
            exact indexOk_capital h1 h2 h7 hf rfl ho hne2 ht rfl h5 h6 hto0 htocp
          · rw [makeMove_specialFail_eq s a b c d mt hgo2 hv hf ht hto0 htocp (Or.inl hcap)
              (by omega)]
            apply stateOk_checkWin
            refine ⟨shapeOk_setTile hshape1 _ _ _,
              ownersOk_setTile howners1 (by exact httb.1) (by exact httb.2) _ _,
              unitsOk_setTile hunits1 (by
                show (0:Int) ≤ if tt.units - moveUnitsOf mt ft.units ≤ 0 then 0
                  else tt.units - moveUnitsOf mt ft.units
                split <;> omega) _ _,
              h4, h5, h6, ?_⟩
            exact indexOk_units_only h7 hf rfl ht1 rfl
        · by_cases hsh : tt.type = 2
          · by_cases hres : 1 ≤ moveUnitsOf mt ft.units - tt.units
            · rw [makeMove_captureStronghold_eq s a b c d mt hgo2 hv hf ht hto0 htocp hsh hres]
              apply stateOk_checkWin
              refine ⟨shapeOk_setTile hshape1 _ _ _,
                ownersOk_setTile howners1 (by show (0:Int) ≤ s.currentPlayer; omega)
                  (by show s.currentPlayer ≤ s.playerCount; omega) _ _,
                unitsOk_setTile hunits1
                  (by show 0 ≤ moveUnitsOf mt ft.units - tt.units; omega) _ _,
                h4, h5, h6, ?_⟩
              exact indexOk_capture h7 hf rfl hne2 ht rfl h5 h6 htocp
            · rw [makeMove_specialFail_eq s a b c d mt hgo2 hv hf ht hto0 htocp (Or.inr hsh)
                (by omega)]
              apply stateOk_checkWin
              refine ⟨shapeOk_setTile hshape1 _ _ _,
                ownersOk_setTile howners1 (by exact httb.1) (by exact httb.2) _ _,
                unitsOk_setTile hunits1 (by
                  show (0:Int) ≤ if tt.units - moveUnitsOf mt ft.units ≤ 0 then 0
                    else tt.units - moveUnitsOf mt ft.units
                  split <;> omega) _ _,
                h4, h5, h6, ?_⟩
              exact indexOk_units_only h7 hf rfl ht1 rfl
          · by_cases hres : 0 ≤ moveUnitsOf mt ft.units - tt.units
            · rw [makeMove_capturePlain_eq s a b c d mt hgo2 hv hf ht hto0 htocp ⟨hcap, hsh⟩
                hres]
              apply stateOk_checkWin
              refine ⟨shapeOk_setTile hshape1 _ _ _,
                ownersOk_setTile howners1 (by show (0:Int) ≤ s.currentPlayer; omega)
                  (by show s.currentPlayer ≤ s.playerCount; omega) _ _,
                unitsOk_setTile hunits1
                  (by show 0 ≤ moveUnitsOf mt ft.units - tt.units; omega) _ _,
                h4, h5, h6, ?_⟩
              exact indexOk_capture h7 hf rfl hne2 ht rfl h5 h6 htocp
            · rw [makeMove_plainFail_eq s a b c d mt hgo2 hv hf ht hto0 htocp ⟨hcap, hsh⟩
                (by omega)]
              apply stateOk_checkWin
              refine ⟨shapeOk_setTile hshape1 _ _ _,
                ownersOk_setTile howners1 (by exact httb.1) (by exact httb.2) _ _,
                unitsOk_setTile hunits1
                  (by show (0:Int) ≤ -(moveUnitsOf mt ft.units - tt.units); omega) _ _,
                h4, h5, h6, ?_⟩
              exact indexOk_units_only h7 hf rfl ht1 rfl

/-- Every reachable state satisfies the full invariant. -/
theorem reachable_stateOk {s : GameState} (h : Reachable s) : StateOk s := by
  induction h with
  | init m n hok => exact initState_ok hok
  | move s a b c d mt _ ih => exact makeMove_stateOk ih a b c d mt
  | next s _ ih => exact nextTurn_stateOk ih

/-! ## C2: index consistency -/

/-- The number of grid cells whose tile has a positive owner (the count the
claim's `Σ_p |playerTiles[p]|` is compared against), enumerated in the
engine's row-major order. -/
def ownedTileCount (m : GameMap) : Nat :=
  ((allCoords m).filter fun c =>
    match tileAt m c.1 c.2 with
    | some t => decide (0 < t.owner)
    | none => false).length

theorem intRange_nodup (a b : Int) : (intRange a b).Nodup := by
  unfold intRange
  refine ((List.nodup_range _).map ?_)
  intro i j hij
  have h2 : a + (i : Int) = a + (j : Int) := hij
  omega

theorem sum_map_add {α : Type} (f g : α → Nat) (l : List α) :
    (l.map fun x => f x + g x).sum = (l.map f).sum + (l.map g).sum := by
  induction l with
  | nil => rfl
  | cons e l ih =>
    simp only [List.map_cons, List.sum_cons, ih]
    omega

theorem sum_indicator_count (o : Int) (l : List Int) :
    (l.map fun p => if o = p then (1 : Nat) else 0).sum = l.count o := by
  induction l with
  | nil => rfl
  | cons e l ih =>
    rw [List.map_cons, List.sum_cons, List.count_cons, ih]
    by_cases h : e = o
    · simp [h, Nat.add_comm]
    · have h2 : ¬ o = e := fun hc => h hc.symm
      simp [h, h2]

theorem count_intRange (a b o : Int) :
    (intRange a b).count o = if a ≤ o ∧ o ≤ b then 1 else 0 := by
  by_cases h : a ≤ o ∧ o ≤ b
  · rw [if_pos h]
    exact List.count_eq_one_of_mem (intRange_nodup a b) ((intRange_mem a b o).2 h)
  · rw [if_neg h]
    exact List.count_eq_zero_of_not_mem fun hm => h ((intRange_mem a b o).1 hm)

theorem owned_indicator_sum (m : GameMap) (n : Int) (e : Nat × Nat)
    (hb : ∀ t, tileAt m e.1 e.2 = some t → 0 ≤ t.owner ∧ t.owner ≤ n) :
    ((intRange 1 n).map fun p => if tileOwnedBy m e p then (1 : Nat) else 0).sum =
      if (match tileAt m e.1 e.2 with
          | some t => decide (0 < t.owner)
          | none => false) = true then 1 else 0 := by
  cases ht : tileAt m e.1 e.2 with
  | none =>
    simp only [tileOwnedBy, ht]
    simp
  | some t =>
    have hbt := hb t ht
    simp only [tileOwnedBy, ht, beq_iff_eq, decide_eq_true_eq]
    rw [show ((intRange 1 n).map fun p => if t.owner = p then (1 : Nat) else 0).sum
        = (intRange 1 n).count t.owner from sum_indicator_count t.owner (intRange 1 n),
      count_intRange]
    by_cases hp : 0 < t.owner
    · rw [if_pos ⟨by omega, hbt.2⟩, if_pos hp]
    · rw [if_neg (by omega), if_neg hp]

theorem sum_filter_owned (m : GameMap) (n : Int) :
    ∀ S : List (Nat × Nat),
      (∀ c ∈ S, ∀ t, tileAt m c.1 c.2 = some t → 0 ≤ t.owner ∧ t.owner ≤ n) →
      ((intRange 1 n).map fun p => (S.filter fun c => tileOwnedBy m c p).length).sum =
        (S.filter fun c =>
          match tileAt m c.1 c.2 with
          | some t => decide (0 < t.owner)
          | none => false).length := by
  intro S
  induction S with
  | nil =>
    intro _
    simp
  | cons e S ih =>
    intro hb
    have hbe : ∀ t, tileAt m e.1 e.2 = some t → 0 ≤ t.owner ∧ t.owner ≤ n :=
      hb e (List.mem_cons_self e S)
    have hbS : ∀ c ∈ S, ∀ t, tileAt m c.1 c.2 = some t → 0 ≤ t.owner ∧ t.owner ≤ n :=
      fun c hc => hb c (List.mem_cons_of_mem e hc)
    have hlen : ∀ q : (Nat × Nat) → Bool,
        ((e :: S).filter q).length = (S.filter q).length + (if q e then 1 else 0) := by
      intro q
      by_cases hq : q e <;> simp [List.filter_cons, hq]
    have hmap : ((intRange 1 n).map fun p => ((e :: S).filter fun c => tileOwnedBy m c p).length)
        = ((intRange 1 n).map fun p =>
            ((S.filter fun c => tileOwnedBy m c p).length) +
              (if tileOwnedBy m e p then 1 else 0)) :=
      List.map_congr_left fun p _ => hlen _
    rw [hmap, sum_map_add, ih hbS, hlen, owned_indicator_sum m n e hbe]

theorem pt_length_eq_filter {s : GameState} (h : StateOk s) {p : Int}
    (hp : p ∈ intRange 1 s.playerCount) :
    (s.playerTiles p).length =
      ((allCoords s.map).filter fun c => tileOwnedBy s.map c p).length := by
  obtain ⟨hS, hO, hU, hn, hc1, hc2, hI⟩ := h
  obtain ⟨hnd, hfwd, hbwd⟩ := hI p hp
  have hperm : List.Perm (s.playerTiles p)
      ((allCoords s.map).filter fun c => tileOwnedBy s.map c p) := by
    refine (List.perm_ext_iff_of_nodup hnd ((allCoords_nodup s.map).filter _)).2 ?_
    intro c
    rw [List.mem_filter]
    constructor
    · intro hc
      have ho := hfwd c hc
      refine ⟨?_, ho⟩
      obtain ⟨x, y⟩ := c
      unfold tileOwnedBy at ho
      cases ht : tileAt s.map x y with
      | none =>
        rw [show tileAt s.map ((x, y) : Nat × Nat).1 ((x, y) : Nat × Nat).2
          = tileAt s.map x y from rfl, ht] at ho
        cases ho
      | some t => exact mem_allCoords_of_tileAt hS ht
    · rintro ⟨hca, ho⟩
      exact hbwd c hca ho
  exact hperm.length_eq

/-- C2: in every reachable state the per-player index `playerTiles[p]`
contains exactly the coordinates whose tile has `owner = p` (for every
registered player `p` in `1..playerCount`), and consequently the sum of the
index sizes over all players equals the number of tiles with a positive
owner. -/
theorem playerTiles_index_consistent (s : GameState) (h : Reachable s) :
    (∀ p ∈ intRange 1 s.playerCount, ∀ c : Nat × Nat,
        c ∈ s.playerTiles p ↔ tileOwnedBy s.map c p = true) ∧
    ((intRange 1 s.playerCount).map fun p => (s.playerTiles p).length).sum =
      ownedTileCount s.map := by
  have hok := reachable_stateOk h
  constructor
  · intro p hp c
    obtain ⟨hS, hO, hU, hn, hc1, hc2, hI⟩ := hok
    obtain ⟨hnd, hfwd, hbwd⟩ := hI p hp
    constructor
    · exact hfwd c
    · intro ho
      refine hbwd c ?_ ho
      obtain ⟨x, y⟩ := c
      unfold tileOwnedBy at ho
      cases ht : tileAt s.map x y with
      | none =>
        rw [show tileAt s.map ((x, y) : Nat × Nat).1 ((x, y) : Nat × Nat).2
          = tileAt s.map x y from rfl, ht] at ho
        cases ho
      | some t => exact mem_allCoords_of_tileAt hS ht
  · rw [List.map_congr_left fun p hp => pt_length_eq_filter hok hp]
    exact sum_filter_owned s.map s.playerCount (allCoords s.map)
      fun c _ t ht => ownersOk_of_tileAt hok.2.1 ht

/-- C2 witness: the consistency statement evaluated on the concrete
two-player demo state, reachable as the initial state of `demoMap`. -/
theorem playerTiles_index_consistent_witness :
    (∀ p ∈ intRange 1 demoState.playerCount, ∀ c : Nat × Nat,
        c ∈ demoState.playerTiles p ↔ tileOwnedBy demoState.map c p = true) ∧
    ((intRange 1 demoState.playerCount).map fun p => (demoState.playerTiles p).length).sum =
      ownedTileCount demoState.map :=
  playerTiles_index_consistent demoState (Reachable.init demoMap 2 (by decide))

/-! ## C8: unit bounds -/

theorem makeMove_true_elim {s : GameState} {a b c d : Nat} {mt : String}
    (h : (GameEngine.makeMove s a b c d mt).1 = true) :
    s.gameOver = false ∧ GameEngine.isValidMove s a b c d = true := by
  by_cases hg : s.gameOver = true
  · rw [makeMove_gameOver_eq hg a b c d mt] at h
    exact Bool.noConfusion h
  · have hgo : s.gameOver = false := by
      cases hb : s.gameOver
      · rfl
      · exact absurd hb hg
    refine ⟨hgo, ?_⟩
    cases hv : GameEngine.isValidMove s a b c d with
    | false =>
      rw [makeMove_of_not_valid mt hv] at h
      exact Bool.noConfusion h
    | true => rfl

theorem tileAt_checkWin_pair (s0 : GameState) (x y : Nat) :
    tileAt (((true, GameEngine.checkWinCondition s0) : Bool × GameState).2).map x y =
      tileAt s0.map x y := by
  show tileAt (GameEngine.checkWinCondition s0).map x y = tileAt s0.map x y
  rw [engineCheckWin_map]

theorem makeMove_source_tile {s : GameState} (h : StateOk s) (a b c d : Nat) (mt : String)
    (hgo : s.gameOver = false) (hv : GameEngine.isValidMove s a b c d = true)
    {ft : Tile} (hf : tileAt s.map a b = some ft) :
    tileAt (GameEngine.makeMove s a b c d mt).2.map a b =
      some { ft with units := ft.units - moveUnitsOf mt ft.units } := by
  obtain ⟨h1, h2, h3, h4, h5, h6, h7⟩ := h
  obtain ⟨ft2, tt, hf2, ht, ho, hu, hm, hd⟩ := isValidMove_spec hv
  rw [hf] at hf2
  cases hf2
  have hne := isValidMove_ne s hv
  have httb := ownersOk_of_tileAt h2 ht
  have hsrc : tileAt (setTile s.map a b
      { ft with units := ft.units - moveUnitsOf mt ft.units }) a b =
      some { ft with units := ft.units - moveUnitsOf mt ft.units } :=
    tileAt_setTile_self hf _
  by_cases hto0 : tt.owner = 0
  · rw [makeMove_neutral_eq s a b c d mt hgo hv hf ht hto0, tileAt_checkWin_pair]
    dsimp only
    rw [tileAt_setTile_ne _ hne]
    exact hsrc
  · by_cases htocp : tt.owner = s.currentPlayer
    · rw [makeMove_merge_eq s a b c d mt hgo hv hf ht htocp (by omega), tileAt_checkWin_pair]
      dsimp only
      rw [tileAt_setTile_ne _ hne]
      exact hsrc
    · by_cases hcap : tt.type = 3
      · by_cases hres : 1 ≤ moveUnitsOf mt ft.units - tt.units
        · rw [makeMove_captureCapital_eq s a b c d mt hgo hv hf ht hto0 htocp hcap hres,
            tileAt_checkWin_pair]
          dsimp only
          have hmem : tt.owner ∈ intRange 1 s.playerCount :=
            (intRange_mem _ _ _).2 ⟨by omega, httb.2⟩
          have hnd := (h7 tt.owner hmem).1
          have hob : tileOwnedBy (setTile
              (setTile s.map a b { ft with units := ft.units - moveUnitsOf mt ft.units })
              c d { tt with owner := s.currentPlayer,
                            units := moveUnitsOf mt ft.units - tt.units,
                            type := 2 }) ((a, b) : Nat × Nat) tt.owner = false := by
            rw [tileOwnedBy_setTile_ne _ _ hne]
            unfold tileOwnedBy
            rw [show tileAt (setTile s.map a b
                { ft with units := ft.units - moveUnitsOf mt ft.units })
                ((a, b) : Nat × Nat).1 ((a, b) : Nat × Nat).2
              = tileAt (setTile s.map a b
                { ft with units := ft.units - moveUnitsOf mt ft.units }) a b from rfl, hsrc]
            simp only [beq_eq_false_iff_ne, ne_eq]
            show ¬ ft.owner = tt.owner
            omega
          unfold GameEngine.takeoverPlayerTiles
          rw [takeover_fold_map s.playerCount tt.owner s.currentPlayer
            (s.playerTiles tt.owner) _ s.playerTiles a b hnd]
          rw [if_neg (fun hcon => by rw [hcon.2] at hob; exact Bool.noConfusion hob)]
          rw [tileAt_setTile_ne _ hne]
          exact hsrc
        · rw [makeMove_specialFail_eq s a b c d mt hgo hv hf ht hto0 htocp (Or.inl hcap)
            (by omega), tileAt_checkWin_pair]
          dsimp only
          rw [tileAt_setTile_ne _ hne]
          exact hsrc
      · by_cases hsh : tt.type = 2
        · by_cases hres : 1 ≤ moveUnitsOf mt ft.units - tt.units
          · rw [makeMove_captureStronghold_eq s a b c d mt hgo hv hf ht hto0 htocp hsh hres,
              tileAt_checkWin_pair]
            dsimp only
            rw [tileAt_setTile_ne _ hne]
            exact hsrc
          · rw [makeMove_specialFail_eq s a b c d mt hgo hv hf ht hto0 htocp (Or.inr hsh)
              (by omega), tileAt_checkWin_pair]
            dsimp only
            rw [tileAt_setTile_ne _ hne]
            exact hsrc
        · by_cases hres : 0 ≤ moveUnitsOf mt ft.units - tt.units
          · rw [makeMove_capturePlain_eq s a b c d mt hgo hv hf ht hto0 htocp ⟨hcap, hsh⟩ hres,
              tileAt_checkWin_pair]
            dsimp only
            rw [tileAt_setTile_ne _ hne]
            exact hsrc
          · rw [makeMove_plainFail_eq s a b c d mt hgo hv hf ht hto0 htocp ⟨hcap, hsh⟩
              (by omega), tileAt_checkWin_pair]
            dsimp only
            rw [tileAt_setTile_ne _ hne]
            exact hsrc

/-- C8: in every reachable state every tile's `units` is a non-negative
integer, and after any `makeMove` call that returns `true` the source tile
exists in the resulting map with `units ≥ 1` (the engine leaves
`fromTile.units - moveUnits ≥ 1` behind, and no later step of the move
touches the source tile). -/
theorem units_bounds (s : GameState) (h : Reachable s) :
    (∀ row ∈ s.map.tiles, ∀ t ∈ row, 0 ≤ t.units) ∧
    (∀ (a b c d : Nat) (mt : String), (GameEngine.makeMove s a b c d mt).1 = true →
      ∃ ft', tileAt (GameEngine.makeMove s a b c d mt).2.map a b = some ft' ∧
        1 ≤ ft'.units) := by
  have hok := reachable_stateOk h
  refine ⟨hok.2.2.1, ?_⟩
  intro a b c d mt hsucc
  obtain ⟨hgo, hv⟩ := makeMove_true_elim hsucc
  obtain ⟨ft, tt, hf, ht, ho, hu, hm, hd⟩ := isValidMove_spec hv
  refine ⟨{ ft with units := ft.units - moveUnitsOf mt ft.units },
    makeMove_source_tile hok a b c d mt hgo hv hf, ?_⟩
  show 1 ≤ ft.units - moveUnitsOf mt ft.units
  exact moveUnitsOf_lt mt hu

/-- C8 witness: the unit bounds evaluated on the concrete two-player demo
state, reachable as the initial state of `demoMap`. -/
theorem units_bounds_witness :
    (∀ row ∈ demoState.map.tiles, ∀ t ∈ row, 0 ≤ t.units) ∧
    (∀ (a b c d : Nat) (mt : String),
      (GameEngine.makeMove demoState a b c d mt).1 = true →
      ∃ ft', tileAt (GameEngine.makeMove demoState a b c d mt).2.map a b = some ft' ∧
        1 ≤ ft'.units) :=
  units_bounds demoState (Reachable.init demoMap 2 (by decide))

/-! ## C1: engine / search-simulation parity -/

theorem applyMove_merge_eq (s : GameState) (a b c d : Nat) (mt : String) (w : Int)
    {ft tt : Tile} (hf : tileAt s.map a b = some ft)
    (ht1 : tileAt (setTile s.map a b { ft with units := ft.units - moveUnitsOf mt ft.units }) c d
      = some tt)
    (hown : (tt.owner == w) = true) :
    MinimaxAI.applyMove s { fromX := a, fromY := b, toX := c, toY := d, moveType := mt } w =
      MinimaxAI.checkWinCondition { s with
        map := setTile (setTile s.map a b { ft with units := ft.units - moveUnitsOf mt ft.units })
          c d { tt with units := tt.units + moveUnitsOf mt ft.units } } := by
  unfold MinimaxAI.applyMove
  dsimp only
  rw [hf]
  simp only [show (if mt == "half" then Int.fdiv ft.units 2 else ft.units - 1)
      = moveUnitsOf mt ft.units from rfl, ht1]
  rw [if_pos hown]

theorem applyMove_neutral_eq (s : GameState) (a b c d : Nat) (mt : String) (w : Int)
    {ft tt : Tile} (hf : tileAt s.map a b = some ft)
    (ht1 : tileAt (setTile s.map a b { ft with units := ft.units - moveUnitsOf mt ft.units }) c d
      = some tt)
    (hown0 : tt.owner = 0) (hw : w ≠ 0)
    (hnc : ¬ (tt.type = 2 ∧ 0 < tt.captureCost.getD 0)) :
    MinimaxAI.applyMove s { fromX := a, fromY := b, toX := c, toY := d, moveType := mt } w =
      MinimaxAI.checkWinCondition { s with
        map := setTile (setTile s.map a b { ft with units := ft.units - moveUnitsOf mt ft.units })
          c d { tt with owner := w, units := moveUnitsOf mt ft.units }
        playerTiles := MinimaxAI.updateTileOwnership s.playerTiles c d 0 w } := by
  unfold MinimaxAI.applyMove
  dsimp only
  rw [hf]
  simp only [show (if mt == "half" then Int.fdiv ft.units 2 else ft.units - 1)
      = moveUnitsOf mt ft.units from rfl, ht1]
  rw [if_neg (show ¬ (tt.owner == w) = true by simp [hown0]; omega),
    if_pos (show (tt.owner == 0) = true by simp [hown0])]
  cases hcc : tt.captureCost with
  | none => rfl
  | some cost =>
    simp only []
    rw [if_neg (show ¬ ((tt.type == 2) = true ∧ 0 < cost) from fun hcon =>
      hnc ⟨by simpa using hcon.1, by rw [hcc]; exact hcon.2⟩)]

/-- C1 counterexample: on `demoState` the engine accepts the Max move
`(0,0) → (1,0)` (3 units onto a plain enemy tile defending with 3,
`result = 0`) and captures the tile for player 1, while the search's
`simulateMove` applied to the same state and move leaves it owned by
player 2 — the two resolutions of one accepted move disagree, refuting the
parity claim. -/
theorem engine_ai_parity_fails :
    (GameEngine.makeMove demoState 0 0 1 0 "max").1 = true ∧
    (tileAt (GameEngine.makeMove demoState 0 0 1 0 "max").2.map 1 0).map Tile.owner =
      some 1 ∧
    (tileAt (MinimaxAI.simulateMove demoState
        { fromX := 0, fromY := 0, toX := 1, toY := 0, moveType := "max" }
        demoState.currentPlayer).map 1 0).map Tile.owner = some 2 := by
  refine ⟨by decide, by decide, by decide⟩

/-- C1 (amended): parity between the engine and the search simulation does
hold on the sub-class of accepted moves that stay outside the divergent
combat and unlock logic: if the target tile is owned by the mover, or is
neutral but not a Stronghold with a positive `captureCost`, then
`makeMove` succeeds and the resulting map and the entire `playerTiles`
index coincide with those produced by `MinimaxAI.simulateMove` on the same
move (the terminal `gameOver`/`winner` flags are set by two different
win checks and are not compared). -/
theorem engine_ai_parity_restricted (s : GameState) (a b c d : Nat) (mt : String)
    (hgo : s.gameOver = false) (hv : GameEngine.isValidMove s a b c d = true)
    (hcp1 : 1 ≤ s.currentPlayer) (hcpn : s.currentPlayer ≤ s.playerCount)
    {tt : Tile} (ht : tileAt s.map c d = some tt)
    (hscope : tt.owner = s.currentPlayer ∨
      (tt.owner = 0 ∧ ¬ (tt.type = 2 ∧ 0 < tt.captureCost.getD 0))) :
    (GameEngine.makeMove s a b c d mt).1 = true ∧
    (GameEngine.makeMove s a b c d mt).2.map =
      (MinimaxAI.simulateMove s
        { fromX := a, fromY := b, toX := c, toY := d, moveType := mt }
        s.currentPlayer).map ∧
    ∀ q, (GameEngine.makeMove s a b c d mt).2.playerTiles q =
      (MinimaxAI.simulateMove s
        { fromX := a, fromY := b, toX := c, toY := d, moveType := mt }
        s.currentPlayer).playerTiles q := by
  obtain ⟨ft, tt2, hf, ht2, ho, hu, hm, hd⟩ := isValidMove_spec hv
  rw [ht] at ht2
  injection ht2 with hinj
  subst hinj
  have hne := isValidMove_ne s hv
  have hne2 : ((c, d) : Nat × Nat) ≠ (a, b) := fun hcc => hne hcc.symm
  have ht1 : tileAt (setTile s.map a b
      { ft with units := ft.units - moveUnitsOf mt ft.units }) c d = some tt := by
    rw [tileAt_setTile_ne _ hne2, ht]
  have hsim : MinimaxAI.simulateMove s
      { fromX := a, fromY := b, toX := c, toY := d, moveType := mt } s.currentPlayer =
      MinimaxAI.applyMove s
        { fromX := a, fromY := b, toX := c, toY := d, moveType := mt } s.currentPlayer := rfl
  rcases hscope with hown | ⟨hown0, hnc⟩
  · rw [makeMove_merge_eq s a b c d mt hgo hv hf ht hown (by omega), hsim,
      applyMove_merge_eq s a b c d mt s.currentPlayer hf ht1 (by simp [hown])]
    refine ⟨rfl, ?_, ?_⟩
    · dsimp only
      rw [engineCheckWin_map, aiCheckWin_map]
    · intro q
      dsimp only
      rw [engineCheckWin_playerTiles, aiCheckWin_playerTiles]
  · rw [makeMove_neutral_eq s a b c d mt hgo hv hf ht hown0, hsim,
      applyMove_neutral_eq s a b c d mt s.currentPlayer hf ht1 hown0 (by omega) hnc,
      engineUpd_eq_aiUpd_neutral s.playerCount s.playerTiles c d (by omega) hcpn]
    refine ⟨rfl, ?_, ?_⟩
    · dsimp only
      rw [engineCheckWin_map, aiCheckWin_map]
    · intro q
      dsimp only
      rw [engineCheckWin_playerTiles, aiCheckWin_playerTiles]

/-- C1 witness: the restricted parity evaluated on `demoState` for the Max
move `(0,0) → (0,1)` onto the neutral plain tile below the source. -/
theorem engine_ai_parity_restricted_witness :
    (GameEngine.makeMove demoState 0 0 0 1 "max").1 = true ∧
    (GameEngine.makeMove demoState 0 0 0 1 "max").2.map =
      (MinimaxAI.simulateMove demoState
        { fromX := 0, fromY := 0, toX := 0, toY := 1, moveType := "max" }
        demoState.currentPlayer).map ∧
    ∀ q, (GameEngine.makeMove demoState 0 0 0 1 "max").2.playerTiles q =
      (MinimaxAI.simulateMove demoState
        { fromX := 0, fromY := 0, toX := 0, toY := 1, moveType := "max" }
        demoState.currentPlayer).playerTiles q :=
  @engine_ai_parity_restricted demoState 0 0 0 1 "max" (by decide) (by decide) (by decide)
    (by decide) (blankTile 0 0) (by decide) (Or.inr ⟨by decide, by decide⟩)

/-! ## C9: search failure masking -/

theorem getD_mod_mem {α : Type} (l : List α) (i : Nat) (d : α) (h : ¬ l.isEmpty = true) :
    l.getD (i % l.length) d ∈ l := by
  have hlen : 0 < l.length := by
    cases l with
    | nil => exact absurd rfl h
    | cons e t => simp
  have hlt : i % l.length < l.length := Nat.mod_lt _ hlen
  rw [List.getD_eq_getElem?_getD, List.getElem?_eq_getElem hlt]
  exact List.getElem_mem hlt

theorem getDecisionWith_error (maxDepth : Int) (s : GameState) (e : String)
    (c1 c2 : Nat) (coin : Bool) :
    MinimaxAI.getDecisionWith maxDepth s (Except.error e) c1 c2 coin =
      RandomAI.getDecision s c1 c2 coin := by
  unfold MinimaxAI.getDecisionWith
  by_cases hmd : (maxDepth == 0) = true
  · rw [if_pos hmd]
  · rw [if_neg hmd]

theorem getDecision_some {s : GameState} {c1 c2 : Nat} {coin : Bool} {mv : Move}
    (h : RandomAI.getDecision s c1 c2 coin = some mv) :
    ((mv.fromX, mv.fromY) : Nat × Nat) ∈
      RandomAI.getOwnMovableTiles s.map s.currentPlayer s.playerTiles ∧
    ((mv.toX, mv.toY) : Nat × Nat) ∈ RandomAI.getAdjacentTargets s.map mv.fromX mv.fromY ∧
    (mv.moveType = "half" ∨ mv.moveType = "max") := by
  unfold RandomAI.getDecision at h
  by_cases hemp : (RandomAI.getOwnMovableTiles s.map s.currentPlayer s.playerTiles).isEmpty
    = true
  · rw [if_pos hemp] at h
    exact Option.noConfusion h
  · rw [if_neg hemp] at h
    dsimp only at h
    by_cases htemp : (RandomAI.getAdjacentTargets s.map
        ((RandomAI.getOwnMovableTiles s.map s.currentPlayer s.playerTiles).getD
          (c1 % (RandomAI.getOwnMovableTiles s.map s.currentPlayer s.playerTiles).length)
          ((0, 0) : Nat × Nat)).1
        ((RandomAI.getOwnMovableTiles s.map s.currentPlayer s.playerTiles).getD
          (c1 % (RandomAI.getOwnMovableTiles s.map s.currentPlayer s.playerTiles).length)
          ((0, 0) : Nat × Nat)).2).isEmpty = true
    · rw [if_pos htemp] at h
      exact Option.noConfusion h
    · rw [if_neg htemp] at h
      injection h with hmv
      subst hmv
      dsimp only
      refine ⟨getD_mod_mem _ c1 _ hemp, getD_mod_mem _ c2 _ htemp, ?_⟩
      cases coin
      · exact Or.inr rfl
      · exact Or.inl rfl

theorem ownMovable_spec {s : GameState} (h : StateOk s) {c : Nat × Nat}
    (hc : c ∈ RandomAI.getOwnMovableTiles s.map s.currentPlayer s.playerTiles) :
    ∃ t, tileAt s.map c.1 c.2 = some t ∧ t.owner = s.currentPlayer ∧
      2 ≤ t.units ∧ t.type ≠ 1 := by
  obtain ⟨h1, h2, h3, h4, h5, h6, h7⟩ := h
  unfold RandomAI.getOwnMovableTiles at hc
  rw [List.mem_filter] at hc
  obtain ⟨hmem, hpred⟩ := hc
  have hcp : s.currentPlayer ∈ intRange 1 s.playerCount := (intRange_mem _ _ _).2 ⟨h5, h6⟩
  have hob := (h7 _ hcp).2.1 c hmem
  unfold tileOwnedBy at hob
  cases ht : tileAt s.map c.1 c.2 with
  | none =>
    rw [ht] at hob
    exact Bool.noConfusion hob
  | some t =>
    rw [ht] at hob hpred
    simp only [beq_iff_eq] at hob
    simp only [Bool.and_eq_true, Bool.not_eq_true', decide_eq_false_iff_not, not_lt,
      beq_eq_false_iff_ne, ne_eq] at hpred
    exact ⟨t, rfl, hob, hpred.1, hpred.2⟩

theorem adjacentTargets_spec {m : GameMap} {fx fy : Nat} {c : Nat × Nat}
    (hc : c ∈ RandomAI.getAdjacentTargets m fx fy) :
    (∃ t, tileAt m c.1 c.2 = some t ∧ t.type ≠ 1) ∧ manhattan fx fy c.1 c.2 = 1 := by
  unfold RandomAI.getAdjacentTargets at hc
  rw [List.mem_filterMap] at hc
  obtain ⟨dv, hdv, hfd⟩ := hc
  have hdvcases : dv = (((0 : Int), (-1 : Int)) : Int × Int) ∨ dv = ((0, 1) : Int × Int) ∨
      dv = ((-1, 0) : Int × Int) ∨ dv = ((1, 0) : Int × Int) := by
    simpa using hdv
  dsimp only at hfd
  by_cases hb : 0 ≤ (fx : Int) + dv.1 ∧ (fx : Int) + dv.1 < (m.width : Int) ∧
      0 ≤ (fy : Int) + dv.2 ∧ (fy : Int) + dv.2 < (m.height : Int)
  · rw [if_pos hb] at hfd
    cases htn : tileAt m ((fx : Int) + dv.1).toNat ((fy : Int) + dv.2).toNat with
    | none =>
      rw [htn] at hfd
      exact Option.noConfusion hfd
    | some t =>
      rw [htn] at hfd
      simp only [] at hfd
      by_cases hmt : (t.type == 1) = true
      · rw [if_pos hmt] at hfd
        exact Option.noConfusion hfd
      · rw [if_neg hmt] at hfd
        injection hfd with hfd
        subst hfd
        refine ⟨⟨t, htn, by simpa using hmt⟩, ?_⟩
        obtain ⟨hb1, hb2, hb3, hb4⟩ := hb
        rcases hdvcases with rfl | rfl | rfl | rfl <;>
          · unfold manhattan
            dsimp only at hb1 hb2 hb3 hb4 ⊢
            omega
  · rw [if_neg hb] at hfd
    exact Option.noConfusion hfd

/-- C9: when the minimax search raises (modelled by an `Except.error`
outcome), `getDecision` masks the failure and returns exactly the RandomAI
fallback, and that fallback is either `none` (pass) or a legal move of the
current player: the source tile exists, is owned by the current player with
`units ≥ 2` and is not a Mountain, the target tile exists (hence is in
bounds) and is not a Mountain, the two are orthogonally adjacent, and the
move type is `half` or `max`. -/
theorem search_failure_masked (maxDepth : Int) (s : GameState) (h : StateOk s)
    (e : String) (c1 c2 : Nat) (coin : Bool) :
    MinimaxAI.getDecisionWith maxDepth s (Except.error e) c1 c2 coin =
      RandomAI.getDecision s c1 c2 coin ∧
    (RandomAI.getDecision s c1 c2 coin = none ∨
      ∃ mv, RandomAI.getDecision s c1 c2 coin = some mv ∧
        (∃ ft, tileAt s.map mv.fromX mv.fromY = some ft ∧
          ft.owner = s.currentPlayer ∧ 2 ≤ ft.units ∧ ft.type ≠ 1) ∧
        (∃ tt, tileAt s.map mv.toX mv.toY = some tt ∧ tt.type ≠ 1) ∧
        manhattan mv.fromX mv.fromY mv.toX mv.toY = 1 ∧
        (mv.moveType = "half" ∨ mv.moveType = "max")) := by
  refine ⟨getDecisionWith_error maxDepth s e c1 c2 coin, ?_⟩
  cases hd : RandomAI.getDecision s c1 c2 coin with
  | none => exact Or.inl rfl
  | some mv =>
    obtain ⟨hown, htar, hmt⟩ := getDecision_some hd
    obtain ⟨ft, hft, hfo, hfu, hfty⟩ := ownMovable_spec h hown
    obtain ⟨⟨tt, htt, htty⟩, hman⟩ := adjacentTargets_spec htar
    exact Or.inr ⟨mv, rfl, ⟨ft, hft, hfo, hfu, hfty⟩, ⟨tt, htt, htty⟩, hman, hmt⟩

/-- C9 witness: the masking statement evaluated on `demoState` with a
3-ply search that throws, and concrete random draws. -/
theorem search_failure_masked_witness :
    MinimaxAI.getDecisionWith 3 demoState (Except.error "search failed") 0 0 false =
      RandomAI.getDecision demoState 0 0 false ∧
    (RandomAI.getDecision demoState 0 0 false = none ∨
      ∃ mv, RandomAI.getDecision demoState 0 0 false = some mv ∧
        (∃ ft, tileAt demoState.map mv.fromX mv.fromY = some ft ∧
          ft.owner = demoState.currentPlayer ∧ 2 ≤ ft.units ∧ ft.type ≠ 1) ∧
        (∃ tt, tileAt demoState.map mv.toX mv.toY = some tt ∧ tt.type ≠ 1) ∧
        manhattan mv.fromX mv.fromY mv.toX mv.toY = 1 ∧
        (mv.moveType = "half" ∨ mv.moveType = "max")) :=
  search_failure_masked 3 demoState (by decide) "search failed" 0 0 false
